import Mathlib

/-!
# Network-info resolution engine: shallow embedding

A shallow embedding of the juju uniter network-info module
(`NetworkInfoBase` and the CAAS variant `NetworkInfoCAAS`): the retry-driven
address poller, the order-preserving deduplication utilities, and the
relation/endpoint network resolution (`NetworksForRelation`,
`ProcessAPIRequest`).

Go maps are modelled as association lists whose construction order follows
the request order (map-valued results in the source are keyed structures, so
iteration order is immaterial to the properties proved here).  Fallible Go
calls returning `(T, error)` are modelled as `Except Err T`.  The external
collaborators that the source calls but whose code is not part of the
repository sample (`retry.Call`, `corenetwork.SortAddresses`,
`network.FormatAsCIDR`, `machineNetworkInfoResultToNetworkInfoResult`) are
modelled from the specification's description and are marked as such.
-/

deriving instance DecidableEq for Except

namespace NetInfo

/-- Errors as visible to this module: the retryable "no address yet" class
(`network.IsNoAddressError`), the not-found class (`errors.IsNotFound`), the
validation class (`errors.NewNotValid`), and everything else. -/
inductive Err where
  | noAddress (msg : String)
  | notFound (msg : String)
  | notValid (msg : String)
  | other (msg : String)
deriving Repr, DecidableEq

/-- `network.IsNoAddressError`: recognises the "address not yet assigned"
condition. -/
def isNoAddressError : Err → Bool
  | .noAddress _ => true
  | _ => false

/-- `errors.IsNotFound`: recognises the not-found condition. -/
def isNotFound : Err → Bool
  | .notFound _ => true
  | _ => false

/-- Address scope categories (`corenetwork.Scope`). -/
inductive Scope where
  | public
  | cloudLocal
  | machineLocal
  | linkLocal
  | fanLocal
  | unknown
deriving Repr, DecidableEq

/-- A network address value annotated with a scope
(`corenetwork.SpaceAddress`). -/
structure SpaceAddress where
  value : String
  scope : Scope
deriving Repr, DecidableEq

/-- Modelled from the spec: the scope rank used by the scope-aware sort —
public first (most preferred), cluster-local next, then machine-local and
link-local; an address sourced from a fan/overlay interface ranks strictly
worse than any normal rank but better than unknown. -/
def scopeRank : Scope → Nat
  | .public => 0
  | .cloudLocal => 1
  | .machineLocal => 2
  | .linkLocal => 3
  | .fanLocal => 4
  | .unknown => 5

/-- Stable insertion step for the scope-aware sort: the new element is placed
before the first existing element of equal or worse rank, so that elements of
equal rank keep their original relative order under `sortAddresses`. -/
def insertByScope (a : SpaceAddress) : List SpaceAddress → List SpaceAddress
  | [] => [a]
  | b :: bs =>
    if scopeRank a.scope ≤ scopeRank b.scope then a :: b :: bs
    else b :: insertByScope a bs

/-- Modelled from the spec: `corenetwork.SortAddresses` — stable sort
ascending by scope rank (public first). -/
def sortAddresses : List SpaceAddress → List SpaceAddress
  | [] => []
  | a :: rest => insertByScope a (sortAddresses rest)

/-- Split a character list on the dot separator. -/
def splitOnDot : List Char → List (List Char)
  | [] => [[]]
  | c :: cs =>
    let r := splitOnDot cs
    if c = '.' then [] :: r
    else
      match r with
      | [] => [[c]]
      | g :: gs => (c :: g) :: gs

/-- Numeric value of a digit string. -/
def digitsToNat (cs : List Char) : Nat :=
  cs.foldl (fun n c => n * 10 + (c.toNat - 48)) 0

/-- Syntactic validity of a dotted-quad IPv4 address value. -/
def isValidIPv4 (s : String) : Bool :=
  match splitOnDot s.toList with
  | [a, b, c, d] =>
    [a, b, c, d].all fun p =>
      !p.isEmpty && p.all Char.isDigit && decide (digitsToNat p ≤ 255)
  | _ => false

/-- Modelled from the spec: `toCIDR` / the per-address step of
`network.FormatAsCIDR` — formats a bare address as a single-host network
range, failing if the address is not a syntactically valid network
address. -/
def toCIDR (s : String) : Except Err String :=
  if isValidIPv4 s then .ok (s ++ "/32")
  else .error (.other ("invalid address " ++ s))

/-- Modelled from the spec: `network.FormatAsCIDR` — formats each address as
a single-host CIDR, the first failure aborting the conversion. -/
def formatAsCIDR (values : List String) : Except Err (List String) :=
  values.mapM toCIDR

/-- `corenetwork.AlphaSpaceId`: the reserved default space identifier. -/
def AlphaSpaceId : String := "0"

/-! ## The address poller -/

/-- The retry strategy template (`retry.CallArgs` restricted to the fields
this module sets): fixed inter-attempt delay and total elapsed-time budget,
in abstract time units. -/
structure RetryPolicy where
  delay : Nat
  maxDuration : Nat
deriving Repr, DecidableEq

/-- `defaultRetryFactory`: delay 3 time-units, maximum total duration 30
time-units. -/
def defaultRetryFactory : RetryPolicy := ⟨3, 30⟩

/-- Modelled from the spec: the loop of `retry.Call`.  The fetch function is
indexed by the attempt number (successive invocations of the same Go closure
against an eventually-consistent store).  A successful attempt stops the
loop; a fatal error aborts it immediately; a retryable error is followed by
a fixed-delay sleep and another attempt unless that sleep would exhaust the
total elapsed-time budget, in which case the last error is returned.  The
result is paired with the total elapsed time.  `fuel` bounds the recursion;
with `fuel ≥ maxDur` and a positive delay the fuel branch is unreachable. -/
def retryCallLoop {α : Type} (f : Nat → Except Err α) (isFatal : Err → Bool)
    (delay maxDur : Nat) : Nat → Nat → Nat → Except Err α × Nat
  | fuel, attempt, elapsed =>
    match f attempt with
    | .ok a => (.ok a, elapsed)
    | .error e =>
      if isFatal e then (.error e, elapsed)
      else if maxDur ≤ elapsed + delay then (.error e, elapsed)
      else
        match fuel with
        | 0 => (.error e, elapsed)
        | fuel' + 1 =>
          retryCallLoop f isFatal delay maxDur fuel' (attempt + 1) (elapsed + delay)

/-- Modelled from the spec: `retry.Call` with the given policy, starting at
attempt 0 with no elapsed time. -/
def retryCall {α : Type} (policy : RetryPolicy) (f : Nat → Except Err α)
    (isFatal : Err → Bool) : Except Err α × Nat :=
  retryCallLoop f isFatal policy.delay policy.maxDuration policy.maxDuration 0 0

/-- `NetworkInfoBase.pollForAddress`: builds the retry args from the factory,
sets the fetch function, classifies an error as fatal exactly when it is not
a "no address yet" error, and runs the retry loop. -/
def pollForAddress (policy : RetryPolicy)
    (fetcher : Nat → Except Err SpaceAddress) : Except Err SpaceAddress × Nat :=
  retryCall policy fetcher fun e => !isNoAddressError e

/-! ## Order-preserving deduplication -/

/-- Generic loop shared by both deduplication functions of the source: walk
the list keeping a `seen` set of keys, skipping any element whose key was
already seen and otherwise keeping it and recording its key.  (The Go
functions accumulate into an output slice; this direct recursion produces
the same list, see the `Loop` variants below.) -/
def dedupByKey {α : Type} (key : α → String) (seen : List String) :
    List α → List α
  | [] => []
  | a :: rest =>
    if key a ∈ seen then dedupByKey key seen rest
    else a :: dedupByKey key (key a :: seen) rest

/-- The accumulator loop of `dedupStringListPreservingOrder` as written in
the source: a `seen` string set and an `out` slice appended to. -/
def dedupStringLoop (seen : List String) (out : List String) :
    List String → List String
  | [] => out
  | v :: vs =>
    if v ∈ seen then dedupStringLoop seen out vs
    else dedupStringLoop (v :: seen) (out ++ [v]) vs

/-- `dedupStringListPreservingOrder`: removes later duplicates from a string
list, preserving the order of first occurrence. -/
def dedupStringListPreservingOrder (values : List String) : List String :=
  dedupStringLoop [] [] values

/-- `params.InterfaceAddress`: an address value with an optional CIDR. -/
structure InterfaceAddress where
  address : String
  cidr : String
deriving Repr, DecidableEq

/-- The accumulator loop of `dedupAddrList` as written in the source: a
seen-address set and a unique output slice appended to. -/
def dedupAddrLoop (seen : List String) (out : List InterfaceAddress) :
    List InterfaceAddress → List InterfaceAddress
  | [] => out
  | a :: rest =>
    if a.address ∈ seen then dedupAddrLoop seen out rest
    else dedupAddrLoop (a.address :: seen) (out ++ [a]) rest

/-- `dedupAddrList`: removes later duplicates (keyed on the address value)
from a per-device address list, preserving first-occurrence order; lists of
at most one element are returned unchanged. -/
def dedupAddrList (addrList : List InterfaceAddress) : List InterfaceAddress :=
  if addrList.length ≤ 1 then addrList
  else dedupAddrLoop [] [] addrList

/-! ## Result structures -/

/-- `network.NetworkInfo` / `params.NetworkInfo`: one link-layer device with
its addresses. -/
structure NetworkInfo where
  interfaceName : String
  addresses : List InterfaceAddress
deriving Repr, DecidableEq

/-- `params.NetworkInfoResult`: the per-endpoint output — device info,
ordered egress-subnet list, ordered ingress-address list, optional error. -/
structure NetworkInfoResult where
  error : Option Err
  info : List NetworkInfo
  egressSubnets : List String
  ingressAddresses : List String
deriving Repr, DecidableEq

/-- `machineNetworkInfoResult`: device info gathered for one space. -/
structure MachineNetworkInfoResult where
  networkInfos : List NetworkInfo
  error : Option Err
deriving Repr, DecidableEq

/-- Modelled from the spec: `machineNetworkInfoResultToNetworkInfoResult` —
converts gathered per-space device info into the per-endpoint result
structure, carrying an error through and otherwise copying the device
info. -/
def machineNetworkInfoResultToNetworkInfoResult
    (r : MachineNetworkInfoResult) : NetworkInfoResult :=
  match r.error with
  | some e => { error := some e, info := [], egressSubnets := [], ingressAddresses := [] }
  | none => { error := none, info := r.networkInfos, egressSubnets := [], ingressAddresses := [] }

/-- `strings.HasPrefix name "fan-"` on the interface name. -/
def startsWithFan (s : String) : Bool :=
  match s.toList with
  | 'f' :: 'a' :: 'n' :: '-' :: _ => true
  | _ => false

/-- `spaceAddressesFromNetworkInfo`: builds sortable space addresses from
link-layer device info; a device whose name has the fan prefix yields
fan-local-scoped addresses, all others yield unknown-scoped addresses. -/
def spaceAddressesFromNetworkInfo (netInfos : List NetworkInfo) :
    List SpaceAddress :=
  netInfos.flatMap fun nwInfo =>
    let scope := if startsWithFan nwInfo.interfaceName then Scope.fanLocal else Scope.unknown
    nwInfo.addresses.map fun addr => { value := addr.address, scope := scope }

/-- The body of the `dedupNetworkInfoResults` loop for one result: a result
carrying an error is left untouched; otherwise its ingress list, egress
list and every per-device address list are deduplicated. -/
def dedupOneNetworkInfoResult (res : NetworkInfoResult) : NetworkInfoResult :=
  if res.error.isSome then res
  else
    { res with
      ingressAddresses := dedupStringListPreservingOrder res.ingressAddresses
      egressSubnets := dedupStringListPreservingOrder res.egressSubnets
      info := res.info.map fun i => { i with addresses := dedupAddrList i.addresses } }

/-- `dedupNetworkInfoResults`: deduplicates the ingress list, the egress
list and every per-device address list of every non-error result.  The
map-valued `NetworkInfoResults` is modelled as an association list. -/
def dedupNetworkInfoResults (results : List (String × NetworkInfoResult)) :
    List (String × NetworkInfoResult) :=
  results.map fun er => (er.1, dedupOneNetworkInfoResult er.2)

/-! ## Entity-store view and the resolution engine -/

/-- The view of a relation as consumed by this module: the cross-model flag
from `rel.RemoteApplication()` and the per-relation egress-override lookup
`state.NewRelationEgressNetworks(st).Networks(rel.Tag().Id())`, each of
which may fail. -/
structure RelationStore where
  remoteApplication : Except Err Bool
  egressNetworks : Except Err (List String)

/-- `NetworkInfoBase` together with the entity-store queries it performs:
the retry policy from the factory, the bindings snapshot and default egress
subnets captured at construction, the unit's address accessors (the
public/private fetchers indexed by poll attempt), the application's service
type configuration, and relation lookup by identifier (yielding the
relation view and the endpoint name from `rel.Endpoint(appName)`). -/
structure NetworkInfoBase where
  retryPolicy : RetryPolicy
  bindings : List (String × String)
  defaultEgress : List String
  unitAllAddresses : Except Err (List SpaceAddress)
  unitPublicAddress : Nat → Except Err SpaceAddress
  unitPrivateAddress : Nat → Except Err SpaceAddress
  appServiceType : Except Err String
  relations : Int → Except Err (RelationStore × String)

/-- `NetworkInfoBase.getRelationEgressSubnets`: the per-relation egress
override, or the model default egress subnets when the override lookup
fails with the not-found condition; any other lookup error is returned. -/
def getRelationEgressSubnets (n : NetworkInfoBase) (rel : RelationStore) :
    Except Err (List String) :=
  match rel.egressNetworks with
  | .error e => if isNotFound e then .ok n.defaultEgress else .error e
  | .ok egressSubnets => .ok egressSubnets

/-- `NetworkInfoBase.maybeGetUnitAddress`: for a cross-model relation, poll
for the unit's public address; fall back to the private address when the
public poll fails or yields an empty value; return no address (and no
error) when both fail or yield empty values.  For a non-cross-model
relation, return no address.  Poll failures are logged as warnings and
recovered; only the `RemoteApplication` lookup error is propagated. -/
def maybeGetUnitAddress (n : NetworkInfoBase) (rel : RelationStore) :
    Except Err (List SpaceAddress) :=
  match rel.remoteApplication with
  | .error e => .error e
  | .ok crossModel =>
    if !crossModel then .ok []
    else
      let tryPrivate : Except Err (List SpaceAddress) :=
        match (pollForAddress n.retryPolicy n.unitPrivateAddress).1 with
        | .ok address => if address.value ≠ "" then .ok [address] else .ok []
        | .error _ => .ok []
      match (pollForAddress n.retryPolicy n.unitPublicAddress).1 with
      | .ok address => if address.value ≠ "" then .ok [address] else tryPrivate
      | .error _ => tryPrivate

/-- `NetworkInfoBase.NetworksForRelation`: resolves the bound space (always
the alpha space here), the scope-sorted ingress addresses, and the egress
subnets for a relation.  Egress comes from the override-or-default lookup;
ingress from cross-model polling when requested, else from all unit
addresses that are not machine-local (an `AllAddresses` failure is logged
and leaves ingress empty); when egress is empty and ingress is not, egress
is derived as the single-host CIDR of the first sorted ingress address. -/
def NetworksForRelation (n : NetworkInfoBase) (rel : RelationStore)
    (pollAddr : Bool) : Except Err (String × List SpaceAddress × List String) :=
  match getRelationEgressSubnets n rel with
  | .error e => .error e
  | .ok egress =>
    let ingressPolled : Except Err (List SpaceAddress) :=
      if pollAddr then maybeGetUnitAddress n rel else .ok []
    match ingressPolled with
    | .error e => .error e
    | .ok ingress0 =>
      let ingress1 :=
        if ingress0.isEmpty then
          match n.unitAllAddresses with
          | .error _ => ingress0
          | .ok addrs => addrs.filter fun addr => addr.scope ≠ Scope.machineLocal
        else ingress0
      let ingress := sortAddresses ingress1
      match egress, ingress with
      | [], a :: rest =>
        match formatAsCIDR [a.value] with
        | .error e => .error e
        | .ok egressCIDR => .ok (AlphaSpaceId, a :: rest, egressCIDR)
      | _, _ => .ok (AlphaSpaceId, ingress, egress)

/-- `NetworkInfoCAAS.getRelationNetworkInfo`: fetches the relation and its
endpoint name, decides whether to poll from the application's service type
(only load-balancer and external-name services poll), and resolves the
relation networks. -/
def getRelationNetworkInfo (n : NetworkInfoBase) (relationId : Int) :
    Except Err (String × String × List SpaceAddress × List String) :=
  match n.relations relationId with
  | .error e => .error e
  | .ok (rel, endpoint) =>
    match n.appServiceType with
    | .error e => .error e
    | .ok svcType =>
      let pollAddr := svcType == "LoadBalancer" || svcType == "ExternalName"
      match NetworksForRelation n rel pollAddr with
      | .error e => .error e
      | .ok (space, ingress, egress) => .ok (endpoint, space, ingress, egress)

/-- The validation error recorded for a requested endpoint that has no
binding (`errors.NewNotValid`, wrapped by `common.ServerError`). -/
def bindingNotValidResult (endpoint : String) : NetworkInfoResult :=
  { error := some (.notValid ("binding name " ++ endpoint ++ " not defined by the unit's charm"))
    info := []
    egressSubnets := []
    ingressAddresses := [] }

/-- The ingress fallback chain of the final per-endpoint loop of
`NetworkInfoCAAS.ProcessAPIRequest`: the relation-recorded ingress
addresses; if empty, the default ingress addresses; if still empty, the
binding (device) addresses re-sorted with the fan-interface scope
demotion. -/
def finalIngressAddresses (ninfos : MachineNetworkInfoResult)
    (relIngress : List SpaceAddress) (defaultIngressAddresses : List String) :
    List String :=
  let ingress0 := relIngress.map fun addr => addr.value
  let ingress1 := if ingress0.isEmpty then defaultIngressAddresses else ingress0
  if ingress1.isEmpty then
    (sortAddresses (spaceAddressesFromNetworkInfo ninfos.networkInfos)).map
      fun addr => addr.value
  else ingress1

/-- The body of the final per-endpoint loop of
`NetworkInfoCAAS.ProcessAPIRequest` (one iteration): build the result's
device info from the space's gathered info, set egress from the
per-endpoint egress map, compute ingress through the fallback chain
(`finalIngressAddresses`), and derive egress as the single-host CIDR of
the first ingress address when egress is still empty; a CIDR formatting
failure is fatal. -/
def assembleEndpointResult (ninfos : MachineNetworkInfoResult)
    (egress0 : List String) (relIngress : List SpaceAddress)
    (defaultIngressAddresses : List String) : Except Err NetworkInfoResult :=
  let info0 := machineNetworkInfoResultToNetworkInfoResult ninfos
  let ingress2 := finalIngressAddresses ninfos relIngress defaultIngressAddresses
  match egress0, ingress2 with
  | [], a :: rest =>
    match formatAsCIDR [a] with
    | .error e => .error e
    | .ok egressCIDR =>
      .ok { info0 with egressSubnets := egressCIDR, ingressAddresses := a :: rest }
  | eg, ing => .ok { info0 with egressSubnets := eg, ingressAddresses := ing }

/-- A loop over a list whose body may fail, returning early on the first
failure (the shape of the per-endpoint result loop in the source). -/
def exceptMapList {α β : Type} (g : α → Except Err β) : List α → Except Err (List β)
  | [] => .ok []
  | a :: rest =>
    match g a with
    | .error e => .error e
    | .ok b =>
      match exceptMapList g rest with
      | .error e => .error e
      | .ok bs => .ok (b :: bs)

/-- The inbound request: endpoint names and an optional relation id. -/
structure NetworkInfoParams where
  endpoints : List String
  relationId : Option Int

/-- The requested endpoint names, each taken once: requests naming the same
endpoint twice write the same map entries in the source, so the
association-list model processes each requested name once. -/
def requestedOnce (endpoints : List String) : List String :=
  dedupStringListPreservingOrder endpoints

/-- The validated bindings of `ProcessAPIRequest`: the requested endpoints
that have a declared binding, paired with their bound space. -/
def validatedBindings (n : NetworkInfoBase) (endpoints : List String) :
    List (String × String) :=
  (requestedOnce endpoints).filterMap fun ep =>
    (n.bindings.lookup ep).map fun space => (ep, space)

/-- The per-endpoint validation errors of `ProcessAPIRequest`: every
requested endpoint without a declared binding carries a structured
not-valid error. -/
def bindingErrorResults (n : NetworkInfoBase) (endpoints : List String) :
    List (String × NetworkInfoResult) :=
  (requestedOnce endpoints).filterMap fun ep =>
    if (n.bindings.lookup ep).isNone then some (ep, bindingNotValidResult ep)
    else none

/-- The relation step of `ProcessAPIRequest`: with no relation id, every
endpoint keeps the default egress subnets and has no relation ingress; with
a relation id, the relation is resolved and its endpoint's egress is
overwritten when the resolved egress is non-empty, and its ingress
recorded.  The two per-endpoint maps of the source
(`endpointEgressSubnets`, `endpointIngressAddresses`) are modelled as
functions of the endpoint name. -/
def relationNetworkMaps (n : NetworkInfoBase) (relationId : Option Int) :
    Except Err ((String → List String) × (String → List SpaceAddress)) :=
  match relationId with
  | none => .ok (fun _ => n.defaultEgress, fun _ => [])
  | some rid =>
    match getRelationNetworkInfo n rid with
    | .error e => .error e
    | .ok (relEndpoint, _, ingress, egress) =>
      .ok
        (fun ep => if ep = relEndpoint ∧ ¬egress.isEmpty then egress else n.defaultEgress,
         fun ep => if ep = relEndpoint then ingress else [])

/-- The machine-local partition of the sorted unit addresses, recorded as
interface addresses (the synthetic single-space device info). -/
def machineLocalInterfaceAddresses (sorted : List SpaceAddress) : List InterfaceAddress :=
  (sorted.filter fun a => a.scope = Scope.machineLocal).map
    fun a => { address := a.value, cidr := "" }

/-- The externally-visible partition of the sorted unit addresses (the
default ingress address values). -/
def nonMachineLocalValues (sorted : List SpaceAddress) : List String :=
  (sorted.filter fun a => a.scope ≠ Scope.machineLocal).map fun a => a.value

/-- The `networkInfos` map of `ProcessAPIRequest`: device info is recorded
under the alpha space only; any other space yields the zero value of the
Go map lookup. -/
def caasNetworkInfosFor (interfaceAddr : List InterfaceAddress) (space : String) :
    MachineNetworkInfoResult :=
  if space = AlphaSpaceId then
    { networkInfos := [{ interfaceName := "", addresses := interfaceAddr }], error := none }
  else { networkInfos := [], error := none }

/-- `NetworkInfoCAAS.ProcessAPIRequest`: validates each requested endpoint
against the bindings, initialises each endpoint's egress to the default
egress subnets, resolves relation networks when a relation id is supplied
(overwriting the relation endpoint's egress when non-empty and recording
its ingress), gathers and scope-sorts all unit addresses, partitions them
into machine-local interface addresses and default ingress addresses,
assembles one result per bound endpoint, and deduplicates every list of
every result.  A relation-resolution failure, an `AllAddresses` failure or
a CIDR formatting failure is fatal for the whole request. -/
def ProcessAPIRequest (n : NetworkInfoBase) (args : NetworkInfoParams) :
    Except Err (List (String × NetworkInfoResult)) :=
  match relationNetworkMaps n args.relationId with
  | .error e => .error e
  | .ok (egressFor, ingressFor) =>
    match n.unitAllAddresses with
    | .error e => .error e
    | .ok addrs =>
      let sorted := sortAddresses addrs
      let interfaceAddr := machineLocalInterfaceAddresses sorted
      let defaultIngressAddresses := nonMachineLocalValues sorted
      match
        exceptMapList
          (fun epSpace =>
            match assembleEndpointResult (caasNetworkInfosFor interfaceAddr epSpace.2)
                (egressFor epSpace.1) (ingressFor epSpace.1) defaultIngressAddresses with
            | .error e => .error e
            | .ok res => .ok (epSpace.1, res))
          (validatedBindings n args.endpoints) with
      | .error e => .error e
      | .ok results =>
        .ok (dedupNetworkInfoResults (bindingErrorResults n args.endpoints ++ results))

/-! ## Lemmas: the retry loop -/

theorem retryCallLoop_unfold {α : Type} (f : Nat → Except Err α) (isF : Err → Bool)
    (delay maxDur fuel attempt elapsed : Nat) :
    retryCallLoop f isF delay maxDur fuel attempt elapsed =
      match f attempt with
      | .ok a => (.ok a, elapsed)
      | .error e =>
        if isF e then (.error e, elapsed)
        else if maxDur ≤ elapsed + delay then (.error e, elapsed)
        else
          match fuel with
          | 0 => (.error e, elapsed)
          | fuel' + 1 => retryCallLoop f isF delay maxDur fuel' (attempt + 1) (elapsed + delay) := by
  rw [retryCallLoop]

/-- A successful attempt stops the loop at the current elapsed time. -/
theorem retryCallLoop_ok {α : Type} (f : Nat → Except Err α) (isF : Err → Bool)
    (delay maxDur fuel attempt elapsed : Nat) (a : α) (hf : f attempt = Except.ok a) :
    retryCallLoop f isF delay maxDur fuel attempt elapsed = (Except.ok a, elapsed) := by
  rw [retryCallLoop_unfold, hf]

/-- A fatal error aborts the loop immediately at the current elapsed time,
returning the error unchanged. -/
theorem retryCallLoop_fatal {α : Type} (f : Nat → Except Err α) (isF : Err → Bool)
    (delay maxDur fuel attempt elapsed : Nat) (e : Err)
    (hf : f attempt = Except.error e) (hisf : isF e = true) :
    retryCallLoop f isF delay maxDur fuel attempt elapsed = (Except.error e, elapsed) := by
  rw [retryCallLoop_unfold, hf]
  simp [hisf]

/-- A retryable error whose follow-up sleep would exhaust the time budget
stops the loop, returning that (last) error. -/
theorem retryCallLoop_stop {α : Type} (f : Nat → Except Err α) (isF : Err → Bool)
    (delay maxDur fuel attempt elapsed : Nat) (e : Err)
    (hf : f attempt = Except.error e) (hisf : isF e = false)
    (hb : maxDur ≤ elapsed + delay) :
    retryCallLoop f isF delay maxDur fuel attempt elapsed = (Except.error e, elapsed) := by
  rw [retryCallLoop_unfold, hf]
  simp [hisf, hb]

/-- A retryable error within the time budget sleeps for the fixed delay and
moves to the next attempt. -/
theorem retryCallLoop_step_retry {α : Type} (f : Nat → Except Err α) (isF : Err → Bool)
    (delay maxDur fuel attempt elapsed : Nat) (e : Err)
    (hf : f attempt = Except.error e) (hisf : isF e = false)
    (hb : elapsed + delay < maxDur) :
    retryCallLoop f isF delay maxDur (fuel + 1) attempt elapsed =
      retryCallLoop f isF delay maxDur fuel (attempt + 1) (elapsed + delay) := by
  rw [retryCallLoop_unfold, hf]
  simp [hisf, Nat.not_le.mpr hb]

/-- C1: for every fetch function that always fails with the retryable
"address not yet assigned" condition, `pollForAddress` under the default
retry policy (delay 3, maximum total duration 30) terminates with total
elapsed time within the maximum duration — after attempts at 0, 3, …, 27
time-units it stops — and returns the last "not yet assigned" error (the
error of attempt 9) rather than blocking forever. -/
theorem pollForAddress_always_noAddress_returns_last_error
    (f : Nat → Except Err SpaceAddress)
    (hf : ∀ k, ∃ e, f k = Except.error e ∧ isNoAddressError e = true) :
    (pollForAddress defaultRetryFactory f).2 ≤ defaultRetryFactory.maxDuration ∧
    ∃ e, f 9 = Except.error e ∧ isNoAddressError e = true ∧
      pollForAddress defaultRetryFactory f = (Except.error e, 27) := by
  obtain ⟨e0, h0, g0⟩ := hf 0
  obtain ⟨e1, h1, g1⟩ := hf 1
  obtain ⟨e2, h2, g2⟩ := hf 2
  obtain ⟨e3, h3, g3⟩ := hf 3
  obtain ⟨e4, h4, g4⟩ := hf 4
  obtain ⟨e5, h5, g5⟩ := hf 5
  obtain ⟨e6, h6, g6⟩ := hf 6
  obtain ⟨e7, h7, g7⟩ := hf 7
  obtain ⟨e8, h8, g8⟩ := hf 8
  obtain ⟨e9, h9, g9⟩ := hf 9
  have key : pollForAddress defaultRetryFactory f = (Except.error e9, 27) := by
    show retryCallLoop f (fun e => !isNoAddressError e) 3 30 30 0 0 = (Except.error e9, 27)
    have s0 : retryCallLoop f (fun e => !isNoAddressError e) 3 30 30 0 0
        = retryCallLoop f (fun e => !isNoAddressError e) 3 30 29 1 3 :=
      retryCallLoop_step_retry f _ 3 30 29 0 0 e0 h0 (by simp [g0]) (by norm_num)
    have s1 : retryCallLoop f (fun e => !isNoAddressError e) 3 30 29 1 3
        = retryCallLoop f (fun e => !isNoAddressError e) 3 30 28 2 6 :=
      retryCallLoop_step_retry f _ 3 30 28 1 3 e1 h1 (by simp [g1]) (by norm_num)
    have s2 : retryCallLoop f (fun e => !isNoAddressError e) 3 30 28 2 6
        = retryCallLoop f (fun e => !isNoAddressError e) 3 30 27 3 9 :=
      retryCallLoop_step_retry f _ 3 30 27 2 6 e2 h2 (by simp [g2]) (by norm_num)
    have s3 : retryCallLoop f (fun e => !isNoAddressError e) 3 30 27 3 9
        = retryCallLoop f (fun e => !isNoAddressError e) 3 30 26 4 12 :=
      retryCallLoop_step_retry f _ 3 30 26 3 9 e3 h3 (by simp [g3]) (by norm_num)
    have s4 : retryCallLoop f (fun e => !isNoAddressError e) 3 30 26 4 12
        = retryCallLoop f (fun e => !isNoAddressError e) 3 30 25 5 15 :=
      retryCallLoop_step_retry f _ 3 30 25 4 12 e4 h4 (by simp [g4]) (by norm_num)
    have s5 : retryCallLoop f (fun e => !isNoAddressError e) 3 30 25 5 15
        = retryCallLoop f (fun e => !isNoAddressError e) 3 30 24 6 18 :=
      retryCallLoop_step_retry f _ 3 30 24 5 15 e5 h5 (by simp [g5]) (by norm_num)
    have s6 : retryCallLoop f (fun e => !isNoAddressError e) 3 30 24 6 18
        = retryCallLoop f (fun e => !isNoAddressError e) 3 30 23 7 21 :=
      retryCallLoop_step_retry f _ 3 30 23 6 18 e6 h6 (by simp [g6]) (by norm_num)
    have s7 : retryCallLoop f (fun e => !isNoAddressError e) 3 30 23 7 21
        = retryCallLoop f (fun e => !isNoAddressError e) 3 30 22 8 24 :=
      retryCallLoop_step_retry f _ 3 30 22 7 21 e7 h7 (by simp [g7]) (by norm_num)
    have s8 : retryCallLoop f (fun e => !isNoAddressError e) 3 30 22 8 24
        = retryCallLoop f (fun e => !isNoAddressError e) 3 30 21 9 27 :=
      retryCallLoop_step_retry f _ 3 30 21 8 24 e8 h8 (by simp [g8]) (by norm_num)
    have s9 : retryCallLoop f (fun e => !isNoAddressError e) 3 30 21 9 27
        = (Except.error e9, 27) :=
      retryCallLoop_stop f _ 3 30 21 9 27 e9 h9 (by simp [g9]) (by norm_num)
    rw [s0, s1, s2, s3, s4, s5, s6, s7, s8, s9]
  refine ⟨?_, e9, h9, g9, key⟩
  rw [key]
  norm_num [defaultRetryFactory]

/-- Witness for C1 at the fetch function that always reports "address not
yet assigned". -/
theorem pollForAddress_always_noAddress_returns_last_error_witness :
    (∀ k : Nat, ∃ e,
      (fun _ : Nat => (Except.error (Err.noAddress "pending") : Except Err SpaceAddress)) k
        = Except.error e ∧ isNoAddressError e = true) ∧
    ((pollForAddress defaultRetryFactory
        (fun _ => Except.error (Err.noAddress "pending"))).2
      ≤ defaultRetryFactory.maxDuration ∧
    ∃ e, (fun _ : Nat => (Except.error (Err.noAddress "pending") : Except Err SpaceAddress)) 9
        = Except.error e ∧ isNoAddressError e = true ∧
      pollForAddress defaultRetryFactory (fun _ => Except.error (Err.noAddress "pending"))
        = (Except.error e, 27)) := by
  have h : ∀ k : Nat, ∃ e,
      (fun _ : Nat => (Except.error (Err.noAddress "pending") : Except Err SpaceAddress)) k
        = Except.error e ∧ isNoAddressError e = true :=
    fun _ => ⟨Err.noAddress "pending", rfl, rfl⟩
  exact ⟨h, pollForAddress_always_noAddress_returns_last_error _ h⟩

/-- C2: an error from the fetch function is classified retryable exactly
when it is a "no address yet assigned" error: any other error aborts the
retry loop at the very first attempt with no elapsed time and is returned
unchanged to the caller, while a "no address yet" error does not abort —
the loop sleeps for the fixed delay and invokes the fetch function again
(here observed through a second attempt that succeeds). -/
theorem pollForAddress_fatal_iff_not_noAddress (policy : RetryPolicy)
    (f : Nat → Except Err SpaceAddress) (e : Err) (h0 : f 0 = Except.error e) :
    (isNoAddressError e = false → pollForAddress policy f = (Except.error e, 0)) ∧
    (isNoAddressError e = true → policy.delay < policy.maxDuration →
      ∀ a, f 1 = Except.ok a → pollForAddress policy f = (Except.ok a, policy.delay)) := by
  constructor
  · intro hfat
    show retryCallLoop f (fun e => !isNoAddressError e) policy.delay policy.maxDuration
        policy.maxDuration 0 0 = (Except.error e, 0)
    exact retryCallLoop_fatal f _ policy.delay policy.maxDuration policy.maxDuration 0 0 e h0
      (by simp [hfat])
  · intro hret hlt a h1
    obtain ⟨m, hm⟩ : ∃ m, policy.maxDuration = m + 1 := ⟨policy.maxDuration - 1, by omega⟩
    show retryCallLoop f (fun e => !isNoAddressError e) policy.delay policy.maxDuration
        policy.maxDuration 0 0 = (Except.ok a, policy.delay)
    rw [hm]
    have step := retryCallLoop_step_retry f (fun e => !isNoAddressError e) policy.delay
      (m + 1) m 0 0 e h0 (by simp [hret]) (by omega)
    rw [step]
    have fin := retryCallLoop_ok f (fun e => !isNoAddressError e) policy.delay
      (m + 1) m 1 (0 + policy.delay) a h1
    rw [fin]
    simp

/-- Witness for C2 at a fetch function whose first attempt fails with an
error that is not "no address yet": the poll aborts immediately. -/
theorem pollForAddress_fatal_iff_not_noAddress_witness :
    pollForAddress defaultRetryFactory
        (fun k => if k = 0 then Except.error (Err.other "boom")
                  else Except.ok ⟨"10.0.0.1", Scope.public⟩)
      = (Except.error (Err.other "boom"), 0) :=
  (pollForAddress_fatal_iff_not_noAddress defaultRetryFactory _ (Err.other "boom") rfl).1 rfl

/-! ## Lemmas: order-preserving deduplication -/

theorem dedupByKey_sublist {α : Type} (key : α → String) (l : List α) :
    ∀ seen, (dedupByKey key seen l).Sublist l := by
  induction l with
  | nil => intro seen; simp [dedupByKey]
  | cons a rest ih =>
    intro seen
    by_cases h : key a ∈ seen
    · simp only [dedupByKey, if_pos h]
      exact (ih seen).cons a
    · simp only [dedupByKey, if_neg h]
      exact (ih (key a :: seen)).cons₂ a

theorem dedupByKey_key_not_seen {α : Type} (key : α → String) (l : List α) :
    ∀ seen x, x ∈ dedupByKey key seen l → key x ∉ seen := by
  induction l with
  | nil => intro seen x hx; simp [dedupByKey] at hx
  | cons a rest ih =>
    intro seen x hx
    by_cases h : key a ∈ seen
    · rw [dedupByKey, if_pos h] at hx
      exact ih seen x hx
    · rw [dedupByKey, if_neg h] at hx
      rcases List.mem_cons.mp hx with rfl | hx'
      · exact h
      · intro hs
        exact ih (key a :: seen) x hx' (List.mem_cons_of_mem _ hs)

theorem dedupByKey_nodup_keys {α : Type} (key : α → String) (l : List α) :
    ∀ seen, ((dedupByKey key seen l).map key).Nodup := by
  induction l with
  | nil => intro seen; simp [dedupByKey]
  | cons a rest ih =>
    intro seen
    by_cases h : key a ∈ seen
    · rw [dedupByKey, if_pos h]
      exact ih seen
    · rw [dedupByKey, if_neg h]
      rw [List.map_cons, List.nodup_cons]
      refine ⟨?_, ih (key a :: seen)⟩
      intro hmem
      obtain ⟨x, hx, hkx⟩ := List.mem_map.mp hmem
      exact dedupByKey_key_not_seen key rest (key a :: seen) x hx (hkx ▸ List.mem_cons_self _ _)

theorem dedupByKey_eq_self {α : Type} (key : α → String) (l : List α) :
    ∀ seen, (∀ x ∈ l, key x ∉ seen) → (l.map key).Nodup → dedupByKey key seen l = l := by
  induction l with
  | nil => intro seen _ _; simp [dedupByKey]
  | cons a rest ih =>
    intro seen hout hnd
    rw [List.map_cons, List.nodup_cons] at hnd
    have ha : key a ∉ seen := hout a (List.mem_cons_self _ _)
    rw [dedupByKey, if_neg ha]
    congr 1
    refine ih (key a :: seen) ?_ hnd.2
    intro x hx hmem
    rcases List.mem_cons.mp hmem with heq | hseen
    · exact hnd.1 (heq ▸ List.mem_map_of_mem key hx)
    · exact hout x (List.mem_cons_of_mem _ hx) hseen

theorem dedupByKey_idempotent {α : Type} (key : α → String) (l : List α) (seen : List String) :
    dedupByKey key seen (dedupByKey key seen l) = dedupByKey key seen l :=
  dedupByKey_eq_self key _ seen (dedupByKey_key_not_seen key l seen)
    (dedupByKey_nodup_keys key l seen)

theorem dedupByKey_seen_congr {α : Type} (key : α → String) (l : List α) :
    ∀ seen₁ seen₂, (∀ s, s ∈ seen₁ ↔ s ∈ seen₂) →
      dedupByKey key seen₁ l = dedupByKey key seen₂ l := by
  induction l with
  | nil => intro _ _ _; simp [dedupByKey]
  | cons a rest ih =>
    intro seen₁ seen₂ hiff
    by_cases h : key a ∈ seen₁
    · rw [dedupByKey, if_pos h, dedupByKey, if_pos ((hiff _).mp h)]
      exact ih seen₁ seen₂ hiff
    · rw [dedupByKey, if_neg h, dedupByKey, if_neg (fun hc => h ((hiff _).mpr hc))]
      congr 1
      refine ih (key a :: seen₁) (key a :: seen₂) ?_
      intro s
      simp only [List.mem_cons]
      exact or_congr Iff.rfl (hiff s)

theorem dedupByKey_cons_seen {α : Type} (key : α → String) (l : List α) :
    ∀ seen k, dedupByKey key (k :: seen) l
      = dedupByKey key seen (l.filter fun x => key x ≠ k) := by
  induction l with
  | nil => intro _ _; simp [dedupByKey]
  | cons a rest ih =>
    intro seen k
    by_cases hk : key a = k
    · rw [dedupByKey, if_pos (hk ▸ List.mem_cons_self _ _)]
      rw [List.filter_cons, if_neg (by simp [hk])]
      exact ih seen k
    · rw [List.filter_cons, if_pos (by simp [hk])]
      by_cases hs : key a ∈ seen
      · rw [dedupByKey, if_pos (List.mem_cons_of_mem _ hs), dedupByKey, if_pos hs]
        exact ih seen k
      · have hnot : key a ∉ k :: seen := by
          intro hc
          rcases List.mem_cons.mp hc with h | h
          · exact hk h
          · exact hs h
        rw [dedupByKey, if_neg hnot, dedupByKey, if_neg hs]
        congr 1
        calc dedupByKey key (key a :: k :: seen) rest
            = dedupByKey key (k :: key a :: seen) rest := by
              refine dedupByKey_seen_congr key rest _ _ ?_
              intro s
              simp only [List.mem_cons]
              tauto
          _ = dedupByKey key (key a :: seen) (rest.filter fun x => key x ≠ k) :=
              ih (key a :: seen) k

theorem dedupStringLoop_eq {seen out : List String} {l : List String} :
    dedupStringLoop seen out l = out ++ dedupByKey (fun v => v) seen l := by
  induction l generalizing seen out with
  | nil => simp [dedupStringLoop, dedupByKey]
  | cons v vs ih =>
    by_cases h : v ∈ seen
    · rw [dedupStringLoop, if_pos h, dedupByKey, if_pos h]
      exact ih
    · rw [dedupStringLoop, if_neg h, dedupByKey, if_neg h, ih]
      simp

theorem dedupStringListPreservingOrder_eq (l : List String) :
    dedupStringListPreservingOrder l = dedupByKey (fun v => v) [] l := by
  rw [dedupStringListPreservingOrder, dedupStringLoop_eq, List.nil_append]

theorem dedupAddrLoop_eq {seen : List String} {out l : List InterfaceAddress} :
    dedupAddrLoop seen out l = out ++ dedupByKey (fun a => a.address) seen l := by
  induction l generalizing seen out with
  | nil => simp [dedupAddrLoop, dedupByKey]
  | cons a rest ih =>
    by_cases h : a.address ∈ seen
    · rw [dedupAddrLoop, if_pos h, dedupByKey, if_pos h]
      exact ih
    · rw [dedupAddrLoop, if_neg h, dedupByKey, if_neg h, ih]
      simp

theorem dedupAddrList_eq (l : List InterfaceAddress) :
    dedupAddrList l = dedupByKey (fun a => a.address) [] l := by
  match l with
  | [] => simp [dedupAddrList, dedupByKey]
  | [a] => simp [dedupAddrList, dedupByKey]
  | a :: b :: rest =>
    rw [dedupAddrList, if_neg (by simp), dedupAddrLoop_eq, List.nil_append]

/-- C3: both order-preserving deduplications — the string-list one and the
per-device one keyed on the address value — are idempotent, return a
subsequence of the input with no duplicate keys, and keep exactly the first
occurrence of each key in first-seen order: the head of each non-empty list
is kept and every later element with the same key is dropped before the
rest is deduplicated. -/
theorem dedup_keeps_first_occurrences :
    (∀ l : List String,
      dedupStringListPreservingOrder (dedupStringListPreservingOrder l)
          = dedupStringListPreservingOrder l ∧
        (dedupStringListPreservingOrder l).Sublist l ∧
        (dedupStringListPreservingOrder l).Nodup) ∧
    dedupStringListPreservingOrder [] = [] ∧
    (∀ (v : String) (vs : List String),
      dedupStringListPreservingOrder (v :: vs)
        = v :: dedupStringListPreservingOrder (vs.filter fun w => w ≠ v)) ∧
    (∀ l : List InterfaceAddress,
      dedupAddrList (dedupAddrList l) = dedupAddrList l ∧
        (dedupAddrList l).Sublist l ∧
        ((dedupAddrList l).map (fun a => a.address)).Nodup) ∧
    dedupAddrList [] = [] ∧
    (∀ (a : InterfaceAddress) (rest : List InterfaceAddress),
      dedupAddrList (a :: rest)
        = a :: dedupAddrList (rest.filter fun b => b.address ≠ a.address)) := by
  refine ⟨fun l => ⟨?_, ?_, ?_⟩, ?_, fun v vs => ?_, fun l => ⟨?_, ?_, ?_⟩, ?_, fun a rest => ?_⟩
  · rw [dedupStringListPreservingOrder_eq, dedupStringListPreservingOrder_eq]
    exact dedupByKey_idempotent _ l []
  · rw [dedupStringListPreservingOrder_eq]
    exact dedupByKey_sublist _ l []
  · rw [dedupStringListPreservingOrder_eq]
    have := dedupByKey_nodup_keys (fun v => v) l []
    simpa using this
  · rfl
  · rw [dedupStringListPreservingOrder_eq, dedupStringListPreservingOrder_eq,
      dedupByKey, if_neg (List.not_mem_nil v), dedupByKey_cons_seen]
  · rw [dedupAddrList_eq, dedupAddrList_eq]
    exact dedupByKey_idempotent _ l []
  · rw [dedupAddrList_eq]
    exact dedupByKey_sublist _ l []
  · rw [dedupAddrList_eq]
    exact dedupByKey_nodup_keys _ l []
  · rfl
  · rw [dedupAddrList_eq, dedupAddrList_eq,
      dedupByKey, if_neg (List.not_mem_nil a.address), dedupByKey_cons_seen]

/-! ## Relation egress resolution -/

/-- C4: the resolved egress subnets equal the per-relation override when the
override lookup succeeds, and equal the model-default egress subnets
captured at construction when the lookup fails with the not-found
condition; in particular a relation with override `["10.0.0.0/24"]` under
model default `["0.0.0.0/0"]` resolves to exactly `["10.0.0.0/24"]`. -/
theorem getRelationEgressSubnets_override_or_default :
    (∀ (n : NetworkInfoBase) (rel : RelationStore) (subnets : List String),
      rel.egressNetworks = Except.ok subnets →
      getRelationEgressSubnets n rel = Except.ok subnets) ∧
    (∀ (n : NetworkInfoBase) (rel : RelationStore) (e : Err),
      rel.egressNetworks = Except.error e → isNotFound e = true →
      getRelationEgressSubnets n rel = Except.ok n.defaultEgress) ∧
    NetworksForRelation
        { retryPolicy := defaultRetryFactory
          bindings := []
          defaultEgress := ["0.0.0.0/0"]
          unitAllAddresses := Except.ok [⟨"10.1.2.3", Scope.public⟩]
          unitPublicAddress := fun _ => Except.error (Err.noAddress "pending")
          unitPrivateAddress := fun _ => Except.error (Err.noAddress "pending")
          appServiceType := Except.ok ""
          relations := fun _ => Except.error (Err.notFound "no relation") }
        { remoteApplication := Except.ok false
          egressNetworks := Except.ok ["10.0.0.0/24"] }
        false
      = Except.ok (AlphaSpaceId, [⟨"10.1.2.3", Scope.public⟩], ["10.0.0.0/24"]) := by
  refine ⟨?_, ?_, ?_⟩
  · intro n rel subnets h
    simp [getRelationEgressSubnets, h]
  · intro n rel e h hnf
    simp [getRelationEgressSubnets, h, hnf]
  · decide

/-- Witness for C4 at a concrete store: an override of `["10.0.0.0/24"]` is
returned as-is, and a not-found override lookup falls back to the default
`["0.0.0.0/0"]`. -/
theorem getRelationEgressSubnets_override_or_default_witness :
    getRelationEgressSubnets
        { retryPolicy := defaultRetryFactory
          bindings := []
          defaultEgress := ["0.0.0.0/0"]
          unitAllAddresses := Except.ok []
          unitPublicAddress := fun _ => Except.error (Err.noAddress "pending")
          unitPrivateAddress := fun _ => Except.error (Err.noAddress "pending")
          appServiceType := Except.ok ""
          relations := fun _ => Except.error (Err.notFound "no relation") }
        { remoteApplication := Except.ok false
          egressNetworks := Except.ok ["10.0.0.0/24"] }
      = Except.ok ["10.0.0.0/24"] ∧
    getRelationEgressSubnets
        { retryPolicy := defaultRetryFactory
          bindings := []
          defaultEgress := ["0.0.0.0/0"]
          unitAllAddresses := Except.ok []
          unitPublicAddress := fun _ => Except.error (Err.noAddress "pending")
          unitPrivateAddress := fun _ => Except.error (Err.noAddress "pending")
          appServiceType := Except.ok ""
          relations := fun _ => Except.error (Err.notFound "no relation") }
        { remoteApplication := Except.ok false
          egressNetworks := Except.error (Err.notFound "not found") }
      = Except.ok ["0.0.0.0/0"] :=
  ⟨getRelationEgressSubnets_override_or_default.1 _ _ _ rfl,
   getRelationEgressSubnets_override_or_default.2.1 _ _ _ rfl rfl⟩

theorem assembleEndpointResult_unfold (ninfos : MachineNetworkInfoResult)
    (egress0 : List String) (relIngress : List SpaceAddress)
    (defIngress : List String) :
    assembleEndpointResult ninfos egress0 relIngress defIngress =
      match egress0, finalIngressAddresses ninfos relIngress defIngress with
      | [], a :: rest =>
        match formatAsCIDR [a] with
        | .error e => .error e
        | .ok egressCIDR =>
          .ok { machineNetworkInfoResultToNetworkInfoResult ninfos with
                egressSubnets := egressCIDR, ingressAddresses := a :: rest }
      | eg, ing =>
        .ok { machineNetworkInfoResultToNetworkInfoResult ninfos with
              egressSubnets := eg, ingressAddresses := ing } := rfl

/-- C5: in `NetworksForRelation` and in the per-endpoint assembly of
`ProcessAPIRequest`, whenever the egress list is empty while the ingress
list is non-empty after all fallbacks, the returned egress is the
single-host CIDR of the first (most-preferred, post-sort) ingress address;
a non-empty egress list is returned unchanged. -/
theorem egress_defaults_to_first_ingress_cidr :
    (∀ (n : NetworkInfoBase) (rel : RelationStore) (pollAddr : Bool)
      (sp : String) (ing : List SpaceAddress) (eg : List String),
      NetworksForRelation n rel pollAddr = Except.ok (sp, ing, eg) →
      ∃ eg₀, getRelationEgressSubnets n rel = Except.ok eg₀ ∧
        (eg₀ = [] → ing ≠ [] →
          ∃ a rest, ing = a :: rest ∧ formatAsCIDR [a.value] = Except.ok eg) ∧
        (eg₀ ≠ [] → eg = eg₀)) ∧
    (∀ (ninfos : MachineNetworkInfoResult) (egress0 : List String)
      (relIngress : List SpaceAddress) (defIngress : List String)
      (res : NetworkInfoResult),
      assembleEndpointResult ninfos egress0 relIngress defIngress = Except.ok res →
      (egress0 = [] → res.ingressAddresses ≠ [] →
        ∃ a rest, res.ingressAddresses = a :: rest ∧
          formatAsCIDR [a] = Except.ok res.egressSubnets) ∧
      (egress0 ≠ [] → res.egressSubnets = egress0)) := by
  constructor
  · intro n rel pollAddr sp ing eg h
    rw [NetworksForRelation] at h
    cases hG : getRelationEgressSubnets n rel with
    | error e => rw [hG] at h; simp at h
    | ok eg₀ =>
      rw [hG] at h
      refine ⟨eg₀, rfl, ?_⟩
      dsimp only [] at h
      cases hI : (if pollAddr then maybeGetUnitAddress n rel else Except.ok []) with
      | error e => rw [hI] at h; simp at h
      | ok ing0 =>
        rw [hI] at h
        dsimp only [] at h
        split at h
        · rename_i a rest heq
          split at h
          · simp at h
          · rename_i egC hC
            simp only [Except.ok.injEq, Prod.mk.injEq] at h
            obtain ⟨hsp, hing, heg⟩ := h
            constructor
            · intro _ _
              exact ⟨a, rest, hing.symm, by rw [← heg]; exact hC⟩
            · intro hfalse
              exact absurd rfl hfalse
        · rename_i imp
          simp only [Except.ok.injEq, Prod.mk.injEq] at h
          obtain ⟨hsp, hing, heg⟩ := h
          constructor
          · intro h0 hne
            obtain ⟨a, rest, hc⟩ := List.exists_cons_of_ne_nil hne
            exact absurd (hing.trans hc) (fun hcons => imp a rest h0 hcons)
          · intro _
            exact heg.symm
  · intro ninfos egress0 relIngress defIngress res h
    rw [assembleEndpointResult_unfold] at h
    split at h
    · rename_i a rest heq
      split at h
      · simp at h
      · rename_i egC hC
        simp only [Except.ok.injEq] at h
        subst h
        constructor
        · intro _ _
          exact ⟨a, rest, rfl, hC⟩
        · intro hfalse
          exact absurd rfl hfalse
    · rename_i imp
      simp only [Except.ok.injEq] at h
      subst h
      constructor
      · intro h0 hne
        obtain ⟨a, rest, hc⟩ := List.exists_cons_of_ne_nil hne
        exact absurd hc (fun hcons => imp a rest h0 hcons)
      · intro _
        rfl

/-- Witness for C5: a relation with no egress override under an empty model
default, and a per-endpoint assembly with empty initial egress, both derive
their egress from the most-preferred ingress address `10.1.2.3`. -/
theorem egress_defaults_to_first_ingress_cidr_witness :
    (∃ eg₀, getRelationEgressSubnets
        { retryPolicy := defaultRetryFactory
          bindings := []
          defaultEgress := []
          unitAllAddresses := Except.ok [⟨"10.1.2.3", Scope.public⟩]
          unitPublicAddress := fun _ => Except.error (Err.noAddress "pending")
          unitPrivateAddress := fun _ => Except.error (Err.noAddress "pending")
          appServiceType := Except.ok ""
          relations := fun _ => Except.error (Err.notFound "no relation") }
        { remoteApplication := Except.ok false
          egressNetworks := Except.error (Err.notFound "not found") } = Except.ok eg₀ ∧
      (eg₀ = [] → [(⟨"10.1.2.3", Scope.public⟩ : SpaceAddress)] ≠ [] →
        ∃ a rest, [(⟨"10.1.2.3", Scope.public⟩ : SpaceAddress)] = a :: rest ∧
          formatAsCIDR [a.value] = Except.ok ["10.1.2.3/32"]) ∧
      (eg₀ ≠ [] → ["10.1.2.3/32"] = eg₀)) ∧
    ((([] : List String) = [] →
        (({ error := none, info := [], egressSubnets := ["10.1.2.3/32"],
            ingressAddresses := ["10.1.2.3"] } : NetworkInfoResult)).ingressAddresses ≠ [] →
        ∃ a rest,
          (({ error := none, info := [], egressSubnets := ["10.1.2.3/32"],
              ingressAddresses := ["10.1.2.3"] } : NetworkInfoResult)).ingressAddresses
            = a :: rest ∧
          formatAsCIDR [a] = Except.ok
            (({ error := none, info := [], egressSubnets := ["10.1.2.3/32"],
                ingressAddresses := ["10.1.2.3"] } : NetworkInfoResult)).egressSubnets) ∧
      (([] : List String) ≠ [] →
        (({ error := none, info := [], egressSubnets := ["10.1.2.3/32"],
            ingressAddresses := ["10.1.2.3"] } : NetworkInfoResult)).egressSubnets = [])) :=
  ⟨egress_defaults_to_first_ingress_cidr.1 _ _ false AlphaSpaceId
      [⟨"10.1.2.3", Scope.public⟩] ["10.1.2.3/32"] (by decide),
   egress_defaults_to_first_ingress_cidr.2 ⟨[], none⟩ [] [⟨"10.1.2.3", Scope.public⟩] [] _
      (by decide)⟩

/-! ## Lemmas: the scope-aware sort -/

theorem mem_insertByScope (a x : SpaceAddress) (l : List SpaceAddress) :
    x ∈ insertByScope a l ↔ x = a ∨ x ∈ l := by
  induction l with
  | nil => simp [insertByScope]
  | cons b bs ih =>
    rw [insertByScope]
    by_cases hr : scopeRank a.scope ≤ scopeRank b.scope
    · rw [if_pos hr]
      simp [List.mem_cons]
    · rw [if_neg hr]
      simp only [List.mem_cons, ih]
      tauto

theorem mem_sortAddresses (x : SpaceAddress) (l : List SpaceAddress) :
    x ∈ sortAddresses l ↔ x ∈ l := by
  induction l with
  | nil => simp [sortAddresses]
  | cons a rest ih =>
    rw [sortAddresses, mem_insertByScope, ih]
    simp [List.mem_cons]

/-- C6: in `NetworksForRelation`, when polling is disabled or polling
yielded no address, the resolved ingress set equals exactly the unit's
known addresses whose scope is not machine-local, in the order produced by
the scope-aware sort; no machine-local address ever appears in it. -/
theorem NetworksForRelation_ingress_is_sorted_non_machine_local
    (n : NetworkInfoBase) (rel : RelationStore) (pollAddr : Bool)
    (addrs : List SpaceAddress) (sp : String) (ing : List SpaceAddress)
    (eg : List String)
    (hpoll : pollAddr = false ∨ maybeGetUnitAddress n rel = Except.ok [])
    (haddrs : n.unitAllAddresses = Except.ok addrs)
    (h : NetworksForRelation n rel pollAddr = Except.ok (sp, ing, eg)) :
    ing = sortAddresses (addrs.filter fun a => a.scope ≠ Scope.machineLocal) ∧
    ∀ a ∈ ing, a.scope ≠ Scope.machineLocal := by
  have key : ing = sortAddresses (addrs.filter fun a => a.scope ≠ Scope.machineLocal) := by
    rw [NetworksForRelation] at h
    cases hG : getRelationEgressSubnets n rel with
    | error e => rw [hG] at h; simp at h
    | ok eg₀ =>
      rw [hG] at h
      dsimp only [] at h
      have hscrut : (if pollAddr then maybeGetUnitAddress n rel else Except.ok [])
          = Except.ok ([] : List SpaceAddress) := by
        rcases hpoll with hp | hp
        · rw [hp]
          simp
        · rw [hp]
          simp
      rw [hscrut] at h
      dsimp only [] at h
      rw [haddrs] at h
      dsimp only [List.isEmpty_nil, if_pos] at h
      split at h
      · rename_i a rest heq
        split at h
        · simp at h
        · simp only [Except.ok.injEq, Prod.mk.injEq] at h
          exact h.2.1.symm.trans heq.symm
      · simp only [Except.ok.injEq, Prod.mk.injEq] at h
        exact h.2.1.symm
  refine ⟨key, ?_⟩
  intro a ha
  rw [key, mem_sortAddresses] at ha
  have := List.mem_filter.mp ha
  simpa using this.2

/-- Witness for C6: a unit with a machine-local and a public address under a
disabled-polling relation resolves ingress to the public address only. -/
theorem NetworksForRelation_ingress_is_sorted_non_machine_local_witness :
    ([(⟨"10.1.2.3", Scope.public⟩ : SpaceAddress)]
        = sortAddresses
            (([⟨"127.0.0.1", Scope.machineLocal⟩, ⟨"10.1.2.3", Scope.public⟩]
              : List SpaceAddress).filter fun a => a.scope ≠ Scope.machineLocal)) ∧
    ∀ a ∈ [(⟨"10.1.2.3", Scope.public⟩ : SpaceAddress)],
      a.scope ≠ Scope.machineLocal :=
  NetworksForRelation_ingress_is_sorted_non_machine_local
    { retryPolicy := defaultRetryFactory
      bindings := []
      defaultEgress := ["0.0.0.0/0"]
      unitAllAddresses := Except.ok
        [⟨"127.0.0.1", Scope.machineLocal⟩, ⟨"10.1.2.3", Scope.public⟩]
      unitPublicAddress := fun _ => Except.error (Err.noAddress "pending")
      unitPrivateAddress := fun _ => Except.error (Err.noAddress "pending")
      appServiceType := Except.ok ""
      relations := fun _ => Except.error (Err.notFound "no relation") }
    { remoteApplication := Except.ok false
      egressNetworks := Except.ok ["10.0.0.0/24"] }
    false
    [⟨"127.0.0.1", Scope.machineLocal⟩, ⟨"10.1.2.3", Scope.public⟩]
    AlphaSpaceId
    [⟨"10.1.2.3", Scope.public⟩]
    ["10.0.0.0/24"]
    (Or.inl rfl)
    rfl
    (by decide)

/-- C7 counterexample: an entity-store error that is neither the egress
lookup's not-found condition nor a relation-lookup error — here a failing
`AllAddresses` unit lookup — is not propagated by `NetworksForRelation`:
the resolution succeeds with an empty ingress set and the override egress,
contradicting the claim that every such error is fatal. -/
theorem NetworksForRelation_swallows_allAddresses_error :
    NetworksForRelation
        { retryPolicy := defaultRetryFactory
          bindings := []
          defaultEgress := ["0.0.0.0/0"]
          unitAllAddresses := Except.error (Err.other "store down")
          unitPublicAddress := fun _ => Except.error (Err.noAddress "pending")
          unitPrivateAddress := fun _ => Except.error (Err.noAddress "pending")
          appServiceType := Except.ok ""
          relations := fun _ => Except.error (Err.notFound "no relation") }
        { remoteApplication := Except.ok false
          egressNetworks := Except.ok ["10.0.0.0/24"] }
        false
      = Except.ok (AlphaSpaceId, [], ["10.0.0.0/24"]) := by
  decide

/-- C7 amended: during relation resolution, a non-not-found error of the
per-relation egress lookup and an error of the relation's
remote-application lookup are fatal and propagated unchanged; errors of the
unit address lookups are recovered — a failing `AllAddresses` leaves the
ingress set empty and the resolution succeeds, and failing public and
private polls make `maybeGetUnitAddress` return an empty result with no
error. -/
theorem NetworksForRelation_error_propagation_amended :
    (∀ (n : NetworkInfoBase) (rel : RelationStore) (pollAddr : Bool) (e : Err),
      rel.egressNetworks = Except.error e → isNotFound e = false →
      NetworksForRelation n rel pollAddr = Except.error e) ∧
    (∀ (n : NetworkInfoBase) (rel : RelationStore) (eg₀ : List String) (e : Err),
      getRelationEgressSubnets n rel = Except.ok eg₀ →
      rel.remoteApplication = Except.error e →
      NetworksForRelation n rel true = Except.error e) ∧
    (∀ (n : NetworkInfoBase) (rel : RelationStore) (eg₀ : List String) (e : Err),
      getRelationEgressSubnets n rel = Except.ok eg₀ →
      n.unitAllAddresses = Except.error e →
      NetworksForRelation n rel false = Except.ok (AlphaSpaceId, [], eg₀)) ∧
    (∀ (n : NetworkInfoBase) (rel : RelationStore) (e₁ e₂ : Err),
      rel.remoteApplication = Except.ok true →
      (pollForAddress n.retryPolicy n.unitPublicAddress).1 = Except.error e₁ →
      (pollForAddress n.retryPolicy n.unitPrivateAddress).1 = Except.error e₂ →
      maybeGetUnitAddress n rel = Except.ok []) := by
  refine ⟨?_, ?_, ?_, ?_⟩
  · intro n rel pollAddr e h hnf
    rw [NetworksForRelation]
    rw [getRelationEgressSubnets, h]
    simp [hnf]
  · intro n rel eg₀ e hG hR
    have hM : maybeGetUnitAddress n rel = Except.error e := by
      rw [maybeGetUnitAddress, hR]
    rw [NetworksForRelation, hG]
    dsimp only []
    rw [if_pos rfl, hM]
  · intro n rel eg₀ e hG haddr
    rw [NetworksForRelation, hG]
    dsimp only []
    rw [if_neg (by simp)]
    dsimp only [List.isEmpty_nil, if_pos]
    rw [haddr]
    cases eg₀ <;> rfl
  · intro n rel e₁ e₂ hR h₁ h₂
    rw [maybeGetUnitAddress, hR]
    dsimp only []
    rw [h₁, h₂]
    simp

/-- Witness for the amended C7 at concrete stores: a non-not-found egress
lookup error is propagated; a remote-application lookup error is
propagated; a failing `AllAddresses` is recovered to an empty ingress. -/
theorem NetworksForRelation_error_propagation_amended_witness :
    NetworksForRelation
        { retryPolicy := defaultRetryFactory
          bindings := []
          defaultEgress := ["0.0.0.0/0"]
          unitAllAddresses := Except.ok []
          unitPublicAddress := fun _ => Except.error (Err.noAddress "pending")
          unitPrivateAddress := fun _ => Except.error (Err.noAddress "pending")
          appServiceType := Except.ok ""
          relations := fun _ => Except.error (Err.notFound "no relation") }
        { remoteApplication := Except.ok false
          egressNetworks := Except.error (Err.other "egress store down") }
        false
      = Except.error (Err.other "egress store down") ∧
    NetworksForRelation
        { retryPolicy := defaultRetryFactory
          bindings := []
          defaultEgress := ["0.0.0.0/0"]
          unitAllAddresses := Except.ok []
          unitPublicAddress := fun _ => Except.error (Err.noAddress "pending")
          unitPrivateAddress := fun _ => Except.error (Err.noAddress "pending")
          appServiceType := Except.ok ""
          relations := fun _ => Except.error (Err.notFound "no relation") }
        { remoteApplication := Except.error (Err.other "relation store down")
          egressNetworks := Except.ok ["10.0.0.0/24"] }
        true
      = Except.error (Err.other "relation store down") ∧
    NetworksForRelation
        { retryPolicy := defaultRetryFactory
          bindings := []
          defaultEgress := ["0.0.0.0/0"]
          unitAllAddresses := Except.error (Err.other "store down")
          unitPublicAddress := fun _ => Except.error (Err.noAddress "pending")
          unitPrivateAddress := fun _ => Except.error (Err.noAddress "pending")
          appServiceType := Except.ok ""
          relations := fun _ => Except.error (Err.notFound "no relation") }
        { remoteApplication := Except.ok false
          egressNetworks := Except.ok ["10.0.0.0/24"] }
        false
      = Except.ok (AlphaSpaceId, [], ["10.0.0.0/24"]) :=
  ⟨NetworksForRelation_error_propagation_amended.1 _ _ false _ rfl rfl,
   NetworksForRelation_error_propagation_amended.2.1 _ _ ["10.0.0.0/24"] _ rfl rfl,
   NetworksForRelation_error_propagation_amended.2.2.1 _ _ ["10.0.0.0/24"] _ rfl rfl⟩

/-- C9: `maybeGetUnitAddress` never returns an address whose value is the
empty string; when the public-address poll succeeds with an empty value it
falls through to the private-address poll, and when that one also yields an
empty value or fails, the result is an empty address list with no error. -/
theorem maybeGetUnitAddress_never_returns_empty_value
    (n : NetworkInfoBase) (rel : RelationStore) :
    (∀ r, maybeGetUnitAddress n rel = Except.ok r → ∀ a ∈ r, a.value ≠ "") ∧
    (rel.remoteApplication = Except.ok true →
      ∀ pa, (pollForAddress n.retryPolicy n.unitPublicAddress).1 = Except.ok pa →
      pa.value = "" →
      (∀ qa, (pollForAddress n.retryPolicy n.unitPrivateAddress).1 = Except.ok qa →
        qa.value = "" → maybeGetUnitAddress n rel = Except.ok []) ∧
      (∀ e, (pollForAddress n.retryPolicy n.unitPrivateAddress).1 = Except.error e →
        maybeGetUnitAddress n rel = Except.ok []) ∧
      (∀ qa, (pollForAddress n.retryPolicy n.unitPrivateAddress).1 = Except.ok qa →
        qa.value ≠ "" → maybeGetUnitAddress n rel = Except.ok [qa])) := by
  have hpriv : ∀ r,
      ((match (pollForAddress n.retryPolicy n.unitPrivateAddress).1 with
        | Except.ok address =>
          if address.value ≠ "" then Except.ok [address] else Except.ok ([] : List SpaceAddress)
        | Except.error _ => Except.ok []) : Except Err (List SpaceAddress)) = Except.ok r →
      ∀ a ∈ r, a.value ≠ "" := by
    intro r h a ha
    cases hQ : (pollForAddress n.retryPolicy n.unitPrivateAddress).1 with
    | ok qa =>
      rw [hQ] at h
      dsimp only [] at h
      by_cases hqv : qa.value = ""
      · rw [if_neg (by simp [hqv])] at h
        simp only [Except.ok.injEq] at h
        subst h
        simp at ha
      · rw [if_pos hqv] at h
        simp only [Except.ok.injEq] at h
        subst h
        simp only [List.mem_singleton] at ha
        subst ha
        exact hqv
    | error e =>
      rw [hQ] at h
      simp only [Except.ok.injEq] at h
      subst h
      simp at ha
  constructor
  · intro r h a ha
    rw [maybeGetUnitAddress] at h
    cases hR : rel.remoteApplication with
    | error e => rw [hR] at h; simp at h
    | ok cm =>
      rw [hR] at h
      dsimp only [] at h
      cases cm with
      | false =>
        simp only [Bool.not_false, if_pos, Except.ok.injEq] at h
        subst h
        simp at ha
      | true =>
        rw [if_neg (by simp)] at h
        cases hP : (pollForAddress n.retryPolicy n.unitPublicAddress).1 with
        | ok pa =>
          rw [hP] at h
          dsimp only [] at h
          by_cases hv : pa.value = ""
          · rw [if_neg (by simp [hv])] at h
            exact hpriv r h a ha
          · rw [if_pos hv] at h
            simp only [Except.ok.injEq] at h
            subst h
            simp only [List.mem_singleton] at ha
            subst ha
            exact hv
        | error e =>
          rw [hP] at h
          exact hpriv r h a ha
  · intro hR pa hP hv
    have base : maybeGetUnitAddress n rel =
        ((match (pollForAddress n.retryPolicy n.unitPrivateAddress).1 with
          | Except.ok address =>
            if address.value ≠ "" then Except.ok [address] else Except.ok ([] : List SpaceAddress)
          | Except.error _ => Except.ok []) : Except Err (List SpaceAddress)) := by
      rw [maybeGetUnitAddress, hR]
      dsimp only []
      rw [if_neg (by simp), hP]
      dsimp only []
      rw [if_neg (by simp [hv])]
    refine ⟨?_, ?_, ?_⟩
    · intro qa hQ hqv
      rw [base, hQ]
      simp [hqv]
    · intro e hQ
      rw [base, hQ]
    · intro qa hQ hqv
      rw [base, hQ]
      simp [hqv]

/-- Witness for C9: cross-model relation whose public and private polls both
yield an address with empty value — the result is an empty list, no
error. -/
theorem maybeGetUnitAddress_never_returns_empty_value_witness :
    maybeGetUnitAddress
        { retryPolicy := defaultRetryFactory
          bindings := []
          defaultEgress := []
          unitAllAddresses := Except.ok []
          unitPublicAddress := fun _ => Except.ok ⟨"", Scope.unknown⟩
          unitPrivateAddress := fun _ => Except.ok ⟨"", Scope.unknown⟩
          appServiceType := Except.ok ""
          relations := fun _ => Except.error (Err.notFound "no relation") }
        { remoteApplication := Except.ok true
          egressNetworks := Except.error (Err.notFound "not found") }
      = Except.ok [] :=
  ((maybeGetUnitAddress_never_returns_empty_value _ _).2 rfl
    ⟨"", Scope.unknown⟩ (by decide) rfl).1 ⟨"", Scope.unknown⟩ (by decide) rfl

/-! ## Lemmas: association lists and the per-endpoint loop -/

theorem lookup_cons_eq {β : Type} (k : String) (v : β) (l : List (String × β)) :
    List.lookup k ((k, v) :: l) = some v := by
  simp [List.lookup]

theorem lookup_cons_ne {β : Type} (k k' : String) (v : β) (l : List (String × β))
    (h : k ≠ k') : List.lookup k ((k', v) :: l) = List.lookup k l := by
  simp [List.lookup, beq_false_of_ne h]

theorem lookup_append {β : Type} (k : String) (l₁ l₂ : List (String × β)) :
    List.lookup k (l₁ ++ l₂)
      = match List.lookup k l₁ with
        | some v => some v
        | none => List.lookup k l₂ := by
  induction l₁ with
  | nil => simp [List.lookup]
  | cons p l ih =>
    obtain ⟨k', v⟩ := p
    by_cases h : k = k'
    · subst h
      rw [List.cons_append, lookup_cons_eq, lookup_cons_eq]
    · rw [List.cons_append, lookup_cons_ne _ _ _ _ h, lookup_cons_ne _ _ _ _ h, ih]

theorem lookup_dedupNetworkInfoResults (k : String)
    (l : List (String × NetworkInfoResult)) :
    List.lookup k (dedupNetworkInfoResults l)
      = (List.lookup k l).map dedupOneNetworkInfoResult := by
  induction l with
  | nil => simp [dedupNetworkInfoResults, List.lookup]
  | cons p l ih =>
    obtain ⟨k', v⟩ := p
    rw [dedupNetworkInfoResults, List.map_cons]
    by_cases h : k = k'
    · subst h
      rw [lookup_cons_eq, lookup_cons_eq]
      rfl
    · rw [lookup_cons_ne _ _ _ _ h, lookup_cons_ne _ _ _ _ h, ← ih, dedupNetworkInfoResults]

theorem map_fst_filterMap_if {β : Type} (c : String → Bool) (f : String → β)
    (l : List String) :
    (l.filterMap fun e => if c e then some (e, f e) else none).map Prod.fst
      = l.filter c := by
  induction l with
  | nil => simp
  | cons e l ih =>
    rw [List.filterMap_cons, List.filter_cons]
    by_cases h : c e
    · rw [if_pos h, if_pos h, List.map_cons, ih]
    · rw [if_neg h, if_neg h, ih]

theorem map_fst_filterMap_option {β : Type} (m : String → Option β) (l : List String) :
    (l.filterMap fun e => (m e).map fun v => (e, v)).map Prod.fst
      = l.filter fun e => (m e).isSome := by
  induction l with
  | nil => simp
  | cons e l ih =>
    cases hm : m e with
    | none => simp [List.filterMap_cons, List.filter_cons, hm, ih]
    | some v => simp [List.filterMap_cons, List.filter_cons, hm, ih]

theorem lookup_filterMap_if {β : Type} (c : String → Bool) (f : String → β)
    (l : List String) (k : String) :
    List.lookup k (l.filterMap fun e => if c e then some (e, f e) else none)
      = if k ∈ l ∧ c k then some (f k) else none := by
  induction l with
  | nil => simp [List.lookup]
  | cons e l ih =>
    rw [List.filterMap_cons]
    by_cases he : c e
    · rw [if_pos he]
      by_cases hk : k = e
      · subst hk
        rw [lookup_cons_eq, if_pos ⟨List.mem_cons_self _ _, he⟩]
      · rw [lookup_cons_ne _ _ _ _ hk, ih]
        by_cases hkl : k ∈ l ∧ c k
        · rw [if_pos hkl, if_pos ⟨List.mem_cons_of_mem _ hkl.1, hkl.2⟩]
        · rw [if_neg hkl, if_neg ?_]
          intro hc
          rcases List.mem_cons.mp hc.1 with rfl | hmem
          · exact hk rfl
          · exact hkl ⟨hmem, hc.2⟩
    · rw [if_neg he, ih]
      by_cases hk : k = e
      · subst hk
        rw [if_neg (fun hc => he hc.2), if_neg (fun hc => he hc.2)]
      · by_cases hkl : k ∈ l ∧ c k
        · rw [if_pos hkl, if_pos ⟨List.mem_cons_of_mem _ hkl.1, hkl.2⟩]
        · rw [if_neg hkl, if_neg ?_]
          intro hc
          rcases List.mem_cons.mp hc.1 with rfl | hmem
          · exact hk rfl
          · exact hkl ⟨hmem, hc.2⟩

theorem lookup_filterMap_option {β : Type} (m : String → Option β) (l : List String)
    (k : String) :
    List.lookup k (l.filterMap fun e => (m e).map fun v => (e, v))
      = if k ∈ l then m k else none := by
  induction l with
  | nil => simp [List.lookup]
  | cons e l ih =>
    by_cases hk : k = e
    · subst hk
      cases hm : m k with
      | none =>
        rw [List.filterMap_cons, hm]
        dsimp only [Option.map_none']
        rw [ih, if_pos (List.mem_cons_self _ _)]
        by_cases hkl : k ∈ l
        · rw [if_pos hkl]
          exact hm
        · rw [if_neg hkl]
      | some v =>
        rw [List.filterMap_cons, hm]
        dsimp only [Option.map_some']
        rw [lookup_cons_eq, if_pos (List.mem_cons_self _ _)]
    · cases hm : m e with
      | none =>
        rw [List.filterMap_cons, hm]
        dsimp only [Option.map_none']
        rw [ih]
        by_cases hkl : k ∈ l
        · rw [if_pos hkl, if_pos (List.mem_cons_of_mem _ hkl)]
        · rw [if_neg hkl, if_neg (by simp [hk, hkl])]
      | some v =>
        rw [List.filterMap_cons, hm]
        dsimp only [Option.map_some']
        rw [lookup_cons_ne _ _ _ _ hk, ih]
        by_cases hkl : k ∈ l
        · rw [if_pos hkl, if_pos (List.mem_cons_of_mem _ hkl)]
        · rw [if_neg hkl, if_neg (by simp [hk, hkl])]

theorem exceptMapList_forall₂ {α β : Type} (g : α → Except Err β) :
    ∀ (l : List α) (bs : List β), exceptMapList g l = Except.ok bs →
      List.Forall₂ (fun x b => g x = Except.ok b) l bs := by
  intro l
  induction l with
  | nil =>
    intro bs h
    rw [exceptMapList] at h
    simp only [Except.ok.injEq] at h
    subst h
    exact List.Forall₂.nil
  | cons a rest ih =>
    intro bs h
    rw [exceptMapList] at h
    cases hg : g a with
    | error e => rw [hg] at h; simp at h
    | ok b =>
      rw [hg] at h
      cases hr : exceptMapList g rest with
      | error e => rw [hr] at h; simp at h
      | ok bs' =>
        rw [hr] at h
        simp only [Except.ok.injEq] at h
        subst h
        exact List.Forall₂.cons hg (ih bs' hr)

theorem exceptMapList_congr {α β : Type} (g₁ g₂ : α → Except Err β) :
    ∀ l : List α, (∀ x ∈ l, g₁ x = g₂ x) → exceptMapList g₁ l = exceptMapList g₂ l := by
  intro l
  induction l with
  | nil => intro _; rfl
  | cons a rest ih =>
    intro hg
    rw [exceptMapList, exceptMapList, hg a (List.mem_cons_self _ _),
      ih fun x hx => hg x (List.mem_cons_of_mem _ hx)]

theorem mem_dedupByKey_id (l : List String) :
    ∀ (seen : List String) (v : String),
      v ∈ dedupByKey (fun x => x) seen l ↔ v ∈ l ∧ v ∉ seen := by
  induction l with
  | nil => intro seen v; simp [dedupByKey]
  | cons a rest ih =>
    intro seen v
    by_cases h : a ∈ seen
    · rw [dedupByKey, if_pos h, ih]
      simp only [List.mem_cons]
      constructor
      · rintro ⟨hv, hs⟩
        exact ⟨Or.inr hv, hs⟩
      · rintro ⟨rfl | hv, hs⟩
        · exact absurd h hs
        · exact ⟨hv, hs⟩
    · rw [dedupByKey, if_neg h, List.mem_cons, ih]
      simp only [List.mem_cons]
      constructor
      · rintro (rfl | ⟨hv, hs⟩)
        · exact ⟨Or.inl rfl, h⟩
        · exact ⟨Or.inr hv, fun hc => hs (Or.inr hc)⟩
      · rintro ⟨rfl | hv, hs⟩
        · exact Or.inl rfl
        · by_cases hva : v = a
          · exact Or.inl hva
          · exact Or.inr ⟨hv, fun hc => hs (by
              rcases hc with h' | h'
              · exact absurd h' hva
              · exact h')⟩

theorem mem_requestedOnce (eps : List String) (v : String) :
    v ∈ requestedOnce eps ↔ v ∈ eps := by
  rw [requestedOnce, dedupStringListPreservingOrder_eq, mem_dedupByKey_id]
  simp

theorem nodup_requestedOnce (eps : List String) : (requestedOnce eps).Nodup := by
  rw [requestedOnce, dedupStringListPreservingOrder_eq]
  have := dedupByKey_nodup_keys (fun x => x) eps []
  simpa using this

theorem dedupByKey_append_single {α : Type} (key : α → String) (l : List α) (b : α) :
    ∀ seen, dedupByKey key seen (l ++ [b])
      = dedupByKey key seen l ++
          (if key b ∈ seen ∨ key b ∈ l.map key then [] else [b]) := by
  induction l with
  | nil =>
    intro seen
    by_cases h : key b ∈ seen
    · simp [dedupByKey, h]
    · simp [dedupByKey, h]
  | cons a rest ih =>
    intro seen
    rw [List.cons_append, dedupByKey, dedupByKey]
    by_cases h : key a ∈ seen
    · rw [if_pos h, if_pos h, ih seen]
      congr 1
      apply if_congr ?_ rfl rfl
      simp only [List.map_cons, List.mem_cons]
      constructor
      · rintro (hs | hr)
        · exact Or.inl hs
        · exact Or.inr (Or.inr hr)
      · rintro (hs | heq | hr)
        · exact Or.inl hs
        · exact Or.inl (heq ▸ h)
        · exact Or.inr hr
    · rw [if_neg h, if_neg h, ih (key a :: seen), List.cons_append]
      congr 2
      apply if_congr ?_ rfl rfl
      simp only [List.mem_cons, List.map_cons]
      tauto

theorem requestedOnce_append_single (eps : List String) (b : String) :
    requestedOnce (eps ++ [b])
      = requestedOnce eps ++ (if b ∈ eps then [] else [b]) := by
  rw [requestedOnce, requestedOnce, dedupStringListPreservingOrder_eq,
    dedupStringListPreservingOrder_eq, dedupByKey_append_single]
  congr 1
  apply if_congr ?_ rfl rfl
  simp

theorem forall₂_ok_map_fst {α β : Type} (g : (String × α) → Except Err (String × β))
    (hg : ∀ x b, g x = Except.ok b → b.1 = x.1)
    {l : List (String × α)} {bs : List (String × β)}
    (hf : List.Forall₂ (fun x b => g x = Except.ok b) l bs) :
    bs.map Prod.fst = l.map Prod.fst := by
  induction hf with
  | nil => rfl
  | cons hab _ ih => rw [List.map_cons, List.map_cons, ih, hg _ _ hab]

theorem lookup_forall₂_congr {α β : Type}
    (g₁ g₂ : (String × α) → Except Err (String × β)) (badKey : String)
    (hg₁ : ∀ x b, g₁ x = Except.ok b → b.1 = x.1)
    (hg₂ : ∀ x b, g₂ x = Except.ok b → b.1 = x.1)
    (hagree : ∀ x, x.1 ≠ badKey → g₁ x = g₂ x)
    {l : List (String × α)} {bs₁ bs₂ : List (String × β)}
    (h₁ : List.Forall₂ (fun x b => g₁ x = Except.ok b) l bs₁)
    (h₂ : List.Forall₂ (fun x b => g₂ x = Except.ok b) l bs₂) :
    ∀ k, k ≠ badKey → List.lookup k bs₁ = List.lookup k bs₂ := by
  induction h₁ generalizing bs₂ with
  | nil =>
    cases h₂
    intro k _
    rfl
  | cons hab h₁' ih =>
    rename_i x b₁ l' bs₁'
    cases h₂ with
    | cons hab₂ h₂' =>
      rename_i b₂ bs₂'
      intro k hk
      obtain ⟨bk₁, bv₁⟩ := b₁
      obtain ⟨bk₂, bv₂⟩ := b₂
      have k₁ : bk₁ = x.1 := hg₁ _ _ hab
      have k₂ : bk₂ = x.1 := hg₂ _ _ hab₂
      by_cases hkey : k = x.1
      · have hbb : g₁ x = g₂ x := hagree x (hkey ▸ hk)
        rw [hab, hab₂] at hbb
        simp only [Except.ok.injEq, Prod.mk.injEq] at hbb
        obtain ⟨rfl, rfl⟩ := hbb
        have hkk : k = bk₁ := hkey.trans k₁.symm
        rw [hkk, lookup_cons_eq, lookup_cons_eq]
      · have hne₁ : k ≠ bk₁ := fun hc => hkey (hc.trans k₁)
        have hne₂ : k ≠ bk₂ := fun hc => hkey (hc.trans k₂)
        rw [lookup_cons_ne _ _ _ _ hne₁, lookup_cons_ne _ _ _ _ hne₂]
        exact ih h₂' k hk

/-- The per-endpoint loop body of `ProcessAPIRequest` as a function, for
stating inversion facts. -/
def processOneEndpoint
    (egressFor : String → List String) (ingressFor : String → List SpaceAddress)
    (addrs : List SpaceAddress) (epSpace : String × String) :
    Except Err (String × NetworkInfoResult) :=
  match assembleEndpointResult
      (caasNetworkInfosFor (machineLocalInterfaceAddresses (sortAddresses addrs)) epSpace.2)
      (egressFor epSpace.1) (ingressFor epSpace.1)
      (nonMachineLocalValues (sortAddresses addrs)) with
  | .error e => .error e
  | .ok res => .ok (epSpace.1, res)

theorem ProcessAPIRequest_eq_processOne (n : NetworkInfoBase) (args : NetworkInfoParams) :
    ProcessAPIRequest n args =
      match relationNetworkMaps n args.relationId with
      | .error e => .error e
      | .ok (egressFor, ingressFor) =>
        match n.unitAllAddresses with
        | .error e => .error e
        | .ok addrs =>
          match exceptMapList (processOneEndpoint egressFor ingressFor addrs)
              (validatedBindings n args.endpoints) with
          | .error e => .error e
          | .ok results =>
            .ok (dedupNetworkInfoResults (bindingErrorResults n args.endpoints ++ results)) := by
  rfl

theorem ProcessAPIRequest_ok_inversion (n : NetworkInfoBase) (args : NetworkInfoParams)
    (res : List (String × NetworkInfoResult))
    (h : ProcessAPIRequest n args = Except.ok res) :
    ∃ egressFor ingressFor addrs results,
      relationNetworkMaps n args.relationId = Except.ok (egressFor, ingressFor) ∧
      n.unitAllAddresses = Except.ok addrs ∧
      exceptMapList (processOneEndpoint egressFor ingressFor addrs)
          (validatedBindings n args.endpoints) = Except.ok results ∧
      res = dedupNetworkInfoResults (bindingErrorResults n args.endpoints ++ results) := by
  rw [ProcessAPIRequest_eq_processOne] at h
  cases hRel : relationNetworkMaps n args.relationId with
  | error e => rw [hRel] at h; simp at h
  | ok maps =>
    obtain ⟨egressFor, ingressFor⟩ := maps
    rw [hRel] at h
    dsimp only [] at h
    cases hAddrs : n.unitAllAddresses with
    | error e => rw [hAddrs] at h; simp at h
    | ok addrs =>
      rw [hAddrs] at h
      dsimp only [] at h
      cases hMap : exceptMapList (processOneEndpoint egressFor ingressFor addrs)
          (validatedBindings n args.endpoints) with
      | error e => rw [hMap] at h; simp at h
      | ok results =>
        rw [hMap] at h
        simp only [Except.ok.injEq] at h
        exact ⟨egressFor, ingressFor, addrs, results, rfl, rfl, hMap, h.symm⟩

theorem processOneEndpoint_key
    (egressFor : String → List String) (ingressFor : String → List SpaceAddress)
    (addrs : List SpaceAddress) (x : String × String) (b : String × NetworkInfoResult)
    (h : processOneEndpoint egressFor ingressFor addrs x = Except.ok b) :
    b.1 = x.1 := by
  rw [processOneEndpoint] at h
  cases hA : assembleEndpointResult
      (caasNetworkInfosFor (machineLocalInterfaceAddresses (sortAddresses addrs)) x.2)
      (egressFor x.1) (ingressFor x.1)
      (nonMachineLocalValues (sortAddresses addrs)) with
  | error e => rw [hA] at h; simp at h
  | ok r =>
    rw [hA] at h
    simp only [Except.ok.injEq] at h
    rw [← h]

theorem map_fst_dedupNetworkInfoResults (l : List (String × NetworkInfoResult)) :
    (dedupNetworkInfoResults l).map Prod.fst = l.map Prod.fst := by
  rw [dedupNetworkInfoResults, List.map_map]
  exact List.map_congr_left fun er _ => rfl

/-- C8: for every request that does not hit a fatal condition, the result
mapping contains exactly one entry per requested endpoint name; an endpoint
absent from the bindings receives a structured not-valid error scoped to
that endpoint only, is excluded from further processing, and appending such
an endpoint to a request leaves every other endpoint's result unchanged. -/
theorem ProcessAPIRequest_one_entry_per_endpoint
    (n : NetworkInfoBase) (args : NetworkInfoParams)
    (res : List (String × NetworkInfoResult))
    (h : ProcessAPIRequest n args = Except.ok res) :
    ((res.map Prod.fst).Nodup ∧ ∀ ep, ep ∈ res.map Prod.fst ↔ ep ∈ args.endpoints) ∧
    (∀ ep, ep ∈ args.endpoints → n.bindings.lookup ep = none →
      List.lookup ep res = some (bindingNotValidResult ep)) ∧
    (∀ bad, n.bindings.lookup bad = none →
      ∃ res', ProcessAPIRequest n
          { endpoints := args.endpoints ++ [bad], relationId := args.relationId }
          = Except.ok res' ∧
        ∀ ep, ep ≠ bad → List.lookup ep res' = List.lookup ep res) := by
  obtain ⟨egF, ingF, addrs, results, hRel, hAddrs, hMap, hRes⟩ :=
    ProcessAPIRequest_ok_inversion n args res h
  have hfor := exceptMapList_forall₂ _ _ _ hMap
  have hkeys : results.map Prod.fst = (validatedBindings n args.endpoints).map Prod.fst :=
    forall₂_ok_map_fst _ (fun x b hb => processOneEndpoint_key egF ingF addrs x b hb) hfor
  have hmapfst : res.map Prod.fst
      = (requestedOnce args.endpoints).filter (fun e => (n.bindings.lookup e).isNone)
        ++ (requestedOnce args.endpoints).filter (fun e => (n.bindings.lookup e).isSome) := by
    rw [hRes, map_fst_dedupNetworkInfoResults, List.map_append, hkeys]
    congr 1
    · rw [bindingErrorResults]
      exact map_fst_filterMap_if _ _ _
    · rw [validatedBindings]
      exact map_fst_filterMap_option _ _
  refine ⟨⟨?_, ?_⟩, ?_, ?_⟩
  · rw [hmapfst]
    refine List.Nodup.append ((nodup_requestedOnce _).filter _)
      ((nodup_requestedOnce _).filter _) ?_
    intro x hx₁ hx₂
    have h₁ := (List.mem_filter.mp hx₁).2
    have h₂ := (List.mem_filter.mp hx₂).2
    cases hlk : n.bindings.lookup x with
    | none => rw [hlk] at h₂; simp at h₂
    | some v => rw [hlk] at h₁; simp at h₁
  · intro ep
    rw [hmapfst]
    simp only [List.mem_append, List.mem_filter, mem_requestedOnce]
    constructor
    · rintro (⟨hin, _⟩ | ⟨hin, _⟩) <;> exact hin
    · intro hin
      cases hlk : n.bindings.lookup ep with
      | none => exact Or.inl ⟨hin, rfl⟩
      | some v => exact Or.inr ⟨hin, rfl⟩
  · intro ep hin hnone
    rw [hRes, lookup_dedupNetworkInfoResults, lookup_append, bindingErrorResults,
      lookup_filterMap_if,
      if_pos ⟨(mem_requestedOnce _ _).mpr hin, by rw [hnone]; rfl⟩]
    rfl
  · intro bad hbad
    have hval : validatedBindings n (args.endpoints ++ [bad])
        = validatedBindings n args.endpoints := by
      rw [validatedBindings, validatedBindings, requestedOnce_append_single,
        List.filterMap_append]
      have htl : (if bad ∈ args.endpoints then ([] : List String) else [bad]).filterMap
          (fun ep => (n.bindings.lookup ep).map fun space => (ep, space)) = [] := by
        by_cases hb : bad ∈ args.endpoints
        · rw [if_pos hb]
          rfl
        · rw [if_neg hb]
          simp [List.filterMap_cons, hbad]
      rw [htl, List.append_nil]
    have herr : bindingErrorResults n (args.endpoints ++ [bad])
        = bindingErrorResults n args.endpoints
          ++ (if bad ∈ args.endpoints then []
              else [(bad, bindingNotValidResult bad)]) := by
      rw [bindingErrorResults, bindingErrorResults, requestedOnce_append_single,
        List.filterMap_append]
      congr 1
      by_cases hb : bad ∈ args.endpoints
      · rw [if_pos hb, if_pos hb]
        rfl
      · rw [if_neg hb, if_neg hb]
        simp [List.filterMap_cons, hbad]
    refine ⟨dedupNetworkInfoResults
        (bindingErrorResults n (args.endpoints ++ [bad]) ++ results), ?_, ?_⟩
    · rw [ProcessAPIRequest_eq_processOne]
      dsimp only []
      rw [hRel]
      dsimp only []
      rw [hAddrs]
      dsimp only []
      rw [hval, hMap]
    · intro ep hep
      have htail : List.lookup ep
          (if bad ∈ args.endpoints then []
           else [(bad, bindingNotValidResult bad)]) = none := by
        by_cases hb : bad ∈ args.endpoints
        · rw [if_pos hb]
          rfl
        · rw [if_neg hb, lookup_cons_ne _ _ _ _ hep]
          rfl
      rw [hRes, herr, lookup_dedupNetworkInfoResults, lookup_dedupNetworkInfoResults]
      congr 1
      rw [List.append_assoc,
        lookup_append ep (bindingErrorResults n args.endpoints) _,
        lookup_append ep (bindingErrorResults n args.endpoints) results]
      cases hE : List.lookup ep (bindingErrorResults n args.endpoints) with
      | some v => rfl
      | none =>
        dsimp only []
        rw [lookup_append, htail]

/-- Witness for C8: requesting `["db", "web"]` where only `"db"` is bound
yields a per-endpoint not-valid error entry for `"web"`. -/
theorem ProcessAPIRequest_one_entry_per_endpoint_witness :
    List.lookup "web"
        [("web", bindingNotValidResult "web"),
         ("db", ({ error := none, info := [{ interfaceName := "", addresses := [] }],
                   egressSubnets := ["0.0.0.0/0"],
                   ingressAddresses := ["10.1.2.3"] } : NetworkInfoResult))]
      = some (bindingNotValidResult "web") :=
  (ProcessAPIRequest_one_entry_per_endpoint
    { retryPolicy := defaultRetryFactory
      bindings := [("db", "0")]
      defaultEgress := ["0.0.0.0/0"]
      unitAllAddresses := Except.ok [⟨"10.1.2.3", Scope.public⟩]
      unitPublicAddress := fun _ => Except.error (Err.noAddress "pending")
      unitPrivateAddress := fun _ => Except.error (Err.noAddress "pending")
      appServiceType := Except.ok ""
      relations := fun _ => Except.error (Err.notFound "no relation") }
    { endpoints := ["db", "web"], relationId := none }
    [("web", bindingNotValidResult "web"),
     ("db", { error := none, info := [{ interfaceName := "", addresses := [] }],
              egressSubnets := ["0.0.0.0/0"], ingressAddresses := ["10.1.2.3"] })]
    (by decide)).2.1 "web" (by decide) rfl

theorem processOneEndpoint_congr_at
    (egF₁ egF₂ : String → List String) (ingF₁ ingF₂ : String → List SpaceAddress)
    (addrs : List SpaceAddress) (x : String × String)
    (h₁ : egF₁ x.1 = egF₂ x.1) (h₂ : ingF₁ x.1 = ingF₂ x.1) :
    processOneEndpoint egF₁ ingF₁ addrs x = processOneEndpoint egF₂ ingF₂ addrs x := by
  rw [processOneEndpoint, processOneEndpoint, h₁, h₂]

/-- C10: in `ProcessAPIRequest`, relation-resolved ingress and egress are
attached only under the relation's own endpoint name: every other
endpoint's entry is identical to what a relation-free request produces, and
when the relation's endpoint is not among the requested endpoints with a
declared binding, the whole response equals the relation-free response —
the relation data is silently absent. -/
theorem ProcessAPIRequest_relation_scoped_to_own_endpoint
    (n : NetworkInfoBase) (rid : Int) (eps : List String)
    (relEp sp : String) (ing : List SpaceAddress) (eg : List String)
    (res res₀ : List (String × NetworkInfoResult))
    (hRel : getRelationNetworkInfo n rid = Except.ok (relEp, sp, ing, eg))
    (h : ProcessAPIRequest n { endpoints := eps, relationId := some rid } = Except.ok res)
    (h₀ : ProcessAPIRequest n { endpoints := eps, relationId := none } = Except.ok res₀) :
    (∀ ep, ep ≠ relEp → List.lookup ep res = List.lookup ep res₀) ∧
    (relEp ∉ (validatedBindings n eps).map Prod.fst → res = res₀) := by
  obtain ⟨egF, ingF, addrs, results, hRelM, hAddrs, hMap, hRes⟩ :=
    ProcessAPIRequest_ok_inversion n _ res h
  obtain ⟨egF₀, ingF₀, addrs₀, results₀, hRelM₀, hAddrs₀, hMap₀, hRes₀⟩ :=
    ProcessAPIRequest_ok_inversion n _ res₀ h₀
  dsimp only [] at hRelM hRelM₀ hMap hMap₀ hRes hRes₀
  have haddr : addrs₀ = addrs := by
    rw [hAddrs] at hAddrs₀
    simp only [Except.ok.injEq] at hAddrs₀
    exact hAddrs₀.symm
  rw [haddr] at hMap₀
  have hcomp : relationNetworkMaps n (some rid)
      = Except.ok
          (fun ep => if ep = relEp ∧ ¬eg.isEmpty then eg else n.defaultEgress,
           fun ep => if ep = relEp then ing else []) := by
    rw [relationNetworkMaps, hRel]
  rw [hcomp] at hRelM
  simp only [Except.ok.injEq, Prod.mk.injEq] at hRelM
  obtain ⟨hegF, hingF⟩ := hRelM
  have hcomp₀ : relationNetworkMaps n none
      = Except.ok ((fun _ => n.defaultEgress : String → List String),
          (fun _ => [] : String → List SpaceAddress)) := by
    rw [relationNetworkMaps]
  rw [hcomp₀] at hRelM₀
  simp only [Except.ok.injEq, Prod.mk.injEq] at hRelM₀
  obtain ⟨hegF₀, hingF₀⟩ := hRelM₀
  have hagree : ∀ x : String × String, x.1 ≠ relEp →
      processOneEndpoint egF ingF addrs x = processOneEndpoint egF₀ ingF₀ addrs x := by
    intro x hx
    refine processOneEndpoint_congr_at _ _ _ _ _ _ ?_ ?_
    · rw [← hegF, ← hegF₀]
      dsimp only []
      rw [if_neg (fun hc => hx hc.1)]
    · rw [← hingF, ← hingF₀]
      dsimp only []
      rw [if_neg hx]
  have hfor := exceptMapList_forall₂ _ _ _ hMap
  have hfor₀ := exceptMapList_forall₂ _ _ _ hMap₀
  constructor
  · intro ep hep
    have hlk : List.lookup ep results = List.lookup ep results₀ :=
      lookup_forall₂_congr _ _ relEp
        (fun x b hb => processOneEndpoint_key egF ingF addrs x b hb)
        (fun x b hb => processOneEndpoint_key egF₀ ingF₀ addrs x b hb)
        hagree hfor hfor₀ ep hep
    rw [hRes, hRes₀, lookup_dedupNetworkInfoResults, lookup_dedupNetworkInfoResults]
    congr 1
    rw [lookup_append, lookup_append]
    cases hE : List.lookup ep (bindingErrorResults n eps) with
    | some v => rfl
    | none =>
      dsimp only []
      exact hlk
  · intro hnot
    have hall : ∀ x ∈ validatedBindings n eps,
        processOneEndpoint egF ingF addrs x = processOneEndpoint egF₀ ingF₀ addrs x := by
      intro x hx
      refine hagree x ?_
      intro hc
      exact hnot (hc ▸ List.mem_map_of_mem Prod.fst hx)
    have : exceptMapList (processOneEndpoint egF ingF addrs) (validatedBindings n eps)
        = exceptMapList (processOneEndpoint egF₀ ingF₀ addrs) (validatedBindings n eps) :=
      exceptMapList_congr _ _ _ hall
    rw [this, hMap₀] at hMap
    simp only [Except.ok.injEq] at hMap
    rw [hRes, hRes₀, hMap]

/-- Witness for C10: with a relation owned by endpoint `"db"` carrying an
egress override, the `"web"` entry of the response is identical to the one
of a relation-free request. -/
theorem ProcessAPIRequest_relation_scoped_to_own_endpoint_witness :
    List.lookup "web"
        [("db", ({ error := none, info := [{ interfaceName := "", addresses := [] }],
                   egressSubnets := ["10.0.0.0/24"],
                   ingressAddresses := ["10.1.2.3"] } : NetworkInfoResult)),
         ("web", ({ error := none, info := [{ interfaceName := "", addresses := [] }],
                    egressSubnets := ["0.0.0.0/0"],
                    ingressAddresses := ["10.1.2.3"] } : NetworkInfoResult))]
      = List.lookup "web"
        [("db", ({ error := none, info := [{ interfaceName := "", addresses := [] }],
                   egressSubnets := ["0.0.0.0/0"],
                   ingressAddresses := ["10.1.2.3"] } : NetworkInfoResult)),
         ("web", ({ error := none, info := [{ interfaceName := "", addresses := [] }],
                    egressSubnets := ["0.0.0.0/0"],
                    ingressAddresses := ["10.1.2.3"] } : NetworkInfoResult))] :=
  (ProcessAPIRequest_relation_scoped_to_own_endpoint
    { retryPolicy := defaultRetryFactory
      bindings := [("db", "0"), ("web", "0")]
      defaultEgress := ["0.0.0.0/0"]
      unitAllAddresses := Except.ok [⟨"10.1.2.3", Scope.public⟩]
      unitPublicAddress := fun _ => Except.error (Err.noAddress "pending")
      unitPrivateAddress := fun _ => Except.error (Err.noAddress "pending")
      appServiceType := Except.ok ""
      relations := fun _ =>
        Except.ok (⟨Except.ok false, Except.ok ["10.0.0.0/24"]⟩, "db") }
    7 ["db", "web"] "db" "0" [⟨"10.1.2.3", Scope.public⟩] ["10.0.0.0/24"]
    [("db", { error := none, info := [{ interfaceName := "", addresses := [] }],
              egressSubnets := ["10.0.0.0/24"], ingressAddresses := ["10.1.2.3"] }),
     ("web", { error := none, info := [{ interfaceName := "", addresses := [] }],
               egressSubnets := ["0.0.0.0/0"], ingressAddresses := ["10.1.2.3"] })]
    [("db", { error := none, info := [{ interfaceName := "", addresses := [] }],
              egressSubnets := ["0.0.0.0/0"], ingressAddresses := ["10.1.2.3"] }),
     ("web", { error := none, info := [{ interfaceName := "", addresses := [] }],
               egressSubnets := ["0.0.0.0/0"], ingressAddresses := ["10.1.2.3"] })]
    (by decide) (by decide) (by decide)).1 "web" (by decide)

end NetInfo
